import Mathlib

/-!
Verification of the retrieval core of the repository: the semantic chunker
(`src/lib/rag/chunker.ts`), the lexical retriever (`DocumentRetriever` in
`src/lib/rag/pdf-loader.ts`), the lifecycle orchestrator (`RAGManager` in
`src/lib/rag/index.ts`) and the tool handler (`handleSearchPdfs` in
`src/lib/rag/mcp-tools.ts`).

JavaScript strings are embedded as `List Char`, JavaScript numbers as `ℝ`
(IEEE floating point is approximated by exact real arithmetic), maps as
functions derived from the chunk list, and `async`/try-catch control flow as
explicit state passing / `Except`.
-/

set_option maxRecDepth 10000

open scoped Classical

namespace RagSpec

/-- JavaScript strings are modelled as lists of characters. -/
abbrev Str := List Char

/-- Convert a Lean string literal into the model's string type. -/
def str (s : String) : Str := s.data

/-- The whitespace class trimmed and split on by the JavaScript code
(`\s` and `trim()`: space, newline, tab, carriage return, form feed,
vertical tab). -/
def isWsChar (c : Char) : Bool :=
  c = ' ' || c = '\n' || c = '\t' || c = '\r' || c = Char.ofNat 12 || c = Char.ofNat 11

/-- `String.prototype.toLowerCase` (characterwise; identity on Hebrew). -/
def toLowerStr (s : Str) : Str := s.map Char.toLower

/-- `String.prototype.trim`: drop leading and trailing whitespace. -/
def trimStr (s : Str) : Str :=
  ((s.dropWhile isWsChar).reverse.dropWhile isWsChar).reverse

/-- `hay.includes(needle)` — substring containment. -/
def isSubstr (needle hay : Str) : Bool :=
  hay.tails.any (fun t => needle.isPrefixOf t)

/-- `hay.indexOf(needle)` — index of the first occurrence (`none` for `-1`). -/
def indexOfSub (hay needle : Str) : Option Nat :=
  match hay with
  | [] => if needle.isPrefixOf ([] : Str) then some 0 else none
  | c :: rest =>
      if needle.isPrefixOf (c :: rest) then some 0
      else (indexOfSub rest needle).map (· + 1)

/-- Auxiliary scan for `countOcc`: the needle is structurally nonempty, and
after each hit the scan skips the needle's length, as the source loop
(`index += substring.length`) does. -/
def countOccAux (n0 : Char) (ntail : Str) : Str → Nat
  | [] => 0
  | c :: rest =>
      if (n0 :: ntail).isPrefixOf (c :: rest) then
        1 + countOccAux n0 ntail ((c :: rest).drop (ntail.length + 1))
      else
        countOccAux n0 ntail rest
termination_by l => l.length
decreasing_by
  · simp only [List.length_drop, List.length_cons]
    omega
  · simp

/-- `DocumentRetriever.countSubstringOccurrences`: non-overlapping substring
occurrences; `0` for the empty needle. -/
def countOcc (hay needle : Str) : Nat :=
  match needle with
  | [] => 0
  | n0 :: ntail => countOccAux n0 ntail hay

/-! ## Chunker (`src/lib/rag/chunker.ts`) -/

/-- `ChunkingConfig` with the constructor's defaults already resolved. -/
structure ChunkingConfig where
  chunkSize : Nat
  overlapSize : Nat
  splitOnSentences : Bool
deriving DecidableEq

/-- Constructor defaults of `SemanticChunker`. -/
def defaultChunkingConfig : ChunkingConfig :=
  { chunkSize := 1000, overlapSize := 200, splitOnSentences := true }

/-- The `Chunk` record of `chunker.ts`. -/
structure Chunk where
  id : Str
  content : Str
  documentId : Str
  documentName : Str
  chunkIndex : Nat
  startPage : Option Nat
  startChar : Nat
  endChar : Nat
deriving DecidableEq

/-- Merge maximal same-class runs into segments: a run of two or more
newlines is a separator, anything else is content. -/
def splitParasGo (acc : Str) : List (List Char) → List Str
  | [] => [acc]
  | g :: gs =>
      match g with
      | '\n' :: _ :: _ => acc :: splitParasGo [] gs
      | _ => splitParasGo (acc ++ g) gs

/-- Splitting on `/\n\n+/`: a (greedy, maximal) run of two or more
newlines separates paragraphs; a single newline is ordinary content. -/
def splitParasAux (text : Str) : List Str :=
  splitParasGo [] (text.splitBy (fun a b => (a == '\n') == (b == '\n')))

/-- Decimal digit run to a number (`parseInt(..., 10)` on a digit string). -/
def digitsToNat (ds : Str) : Nat :=
  ds.foldl (fun n c => n * 10 + (c.toNat - 48)) 0

/-- Try to read a `[Page N]` marker starting exactly at the head of `s`. -/
def parsePageAt (s : Str) : Option Nat :=
  if (str "[Page ").isPrefixOf s then
    let after := s.drop 6
    let ds := after.takeWhile Char.isDigit
    match ds, after.drop ds.length with
    | [], _ => none
    | _ :: _, c2 :: _ => if c2 = ']' then some (digitsToNat ds) else none
    | _ :: _, [] => none
  else none

/-- `paragraph.match(/\[Page (\d+)\]/)`: first `[Page N]` marker, if any. -/
def findPageMarker : Str → Option Nat
  | [] => none
  | c :: rest =>
      match parsePageAt (c :: rest) with
      | some n => some n
      | none => findPageMarker rest

/-- Sentence-terminal punctuation (`.`, `!`, `?`). -/
def isSentEnd (c : Char) : Bool := c = '.' || c = '!' || c = '?'

/-- Merge same-class runs into regex matches: each maximal terminator run
closes the pending non-terminator prefix; a trailing unterminated prefix
is not matched. -/
def sentencesGo (acc : Str) : List (List Char) → List Str
  | [] => []
  | g :: gs =>
      match g with
      | [] => sentencesGo acc gs
      | c :: _ =>
          if isSentEnd c then (acc ++ g) :: sentencesGo [] gs
          else sentencesGo (acc ++ g) gs

/-- The matches of `/[^.!?]*[.!?]+/g`: maximal runs of non-terminators
followed by a maximal run of terminators; `match(...) || [text]` falls
back to the whole text when there is no match. -/
def matchSentences (text : Str) : List Str :=
  match sentencesGo [] (text.splitBy (fun a b => isSentEnd a == isSentEnd b)) with
  | [] => [text]
  | m => m

/-- One step of the greedy sentence repacking loop in
`splitLongParagraphsOnSentences`. -/
def packStep (cfg : ChunkingConfig) (acc : List Str × Str) (s : Str) :
    List Str × Str :=
  if 0 < acc.2.length ∧ cfg.chunkSize < acc.2.length + s.length then
    (acc.1 ++ [trimStr acc.2], s)
  else
    (acc.1, acc.2 ++ s)

/-- Greedy repacking of sentences into pieces of at most `chunkSize`
(the inner loop of `splitLongParagraphsOnSentences`). -/
def packSentences (cfg : ChunkingConfig) (sents : List Str) : List Str :=
  let fin := sents.foldl (packStep cfg) ([], [])
  if 0 < (trimStr fin.2).length then fin.1 ++ [trimStr fin.2] else fin.1

/-- `SemanticChunker.splitLongParagraphsOnSentences`. -/
def splitLongParagraph (cfg : ChunkingConfig) (text : Str) : List Str :=
  if text.length ≤ cfg.chunkSize then [text]
  else packSentences cfg (matchSentences text)

/-- `SemanticChunker.splitIntoParagraphs`. -/
def splitIntoParagraphs (cfg : ChunkingConfig) (text : Str) : List Str :=
  let normalized := ((splitParasAux text).map trimStr).filter (fun p => p.length ≠ 0)
  if cfg.splitOnSentences then
    normalized.flatMap (splitLongParagraph cfg)
  else normalized

/-- `str.slice(-n)`: the last `n` characters; `slice(-0)` is the whole
string, as in JavaScript. -/
def sliceNeg (l : Str) (n : Nat) : Str :=
  if n = 0 then l else l.drop (l.length - n)

/-- Loop state of `SemanticChunker.chunkDocument`; `out` also records, next
to each emitted chunk, the untrimmed buffer it was flushed from. -/
structure ChunkAcc where
  content : Str
  startC : Nat
  idx : Nat
  page : Nat
  cur : Nat
  out : List (Chunk × Str)

/-- `(n).toString()` in decimal. -/
def natToStr (n : Nat) : Str := (toString n).data

/-- Loop body of `SemanticChunker.chunkDocument` for one paragraph. -/
def chunkStep (cfg : ChunkingConfig) (documentId documentName : Str)
    (st : ChunkAcc) (para : Str) : ChunkAcc :=
  let page1 := match findPageMarker para with
    | some n => n
    | none => st.page
  if 0 < st.content.length ∧ cfg.chunkSize < st.content.length + para.length then
    let c : Chunk :=
      { id := documentId ++ str "_chunk_" ++ natToStr st.idx
        content := trimStr st.content
        documentId := documentId
        documentName := documentName
        chunkIndex := st.idx
        startPage := some page1
        startChar := st.startC
        endChar := st.cur }
    { content := sliceNeg st.content cfg.overlapSize ++ str "\n\n" ++ para
      startC := st.cur - cfg.overlapSize
      idx := st.idx + 1
      page := page1
      cur := st.cur + para.length + 2
      out := st.out ++ [(c, st.content)] }
  else
    { st with
      content :=
        if 0 < st.content.length then st.content ++ str "\n\n" ++ para else para
      page := page1
      cur := st.cur + para.length + 2 }

/-- The paragraph loop of `chunkDocument`, starting from the empty buffer. -/
def chunkFold (cfg : ChunkingConfig) (documentId documentName : Str)
    (paras : List Str) : ChunkAcc :=
  paras.foldl (chunkStep cfg documentId documentName)
    { content := [], startC := 0, idx := 0, page := 1, cur := 0, out := [] }

/-- `chunkDocument` including the final flush; each chunk is paired with the
untrimmed buffer it came from. -/
def chunkPairs (cfg : ChunkingConfig) (documentId documentName text : Str) :
    List (Chunk × Str) :=
  let fin := chunkFold cfg documentId documentName (splitIntoParagraphs cfg text)
  if 0 < (trimStr fin.content).length then
    fin.out ++
      [({ id := documentId ++ str "_chunk_" ++ natToStr fin.idx
          content := trimStr fin.content
          documentId := documentId
          documentName := documentName
          chunkIndex := fin.idx
          startPage := some fin.page
          startChar := fin.startC
          endChar := fin.cur }, fin.content)]
  else fin.out

/-- `SemanticChunker.chunkDocument`. -/
def chunkDocument (cfg : ChunkingConfig) (documentId documentName text : Str) :
    List Chunk :=
  (chunkPairs cfg documentId documentName text).map Prod.fst

/-- A `Document` as produced by the loader (`pdf-loader.ts`). -/
structure Document where
  id : Str
  filename : Str
  text : Str
deriving DecidableEq

/-- `chunkDocuments`: chunk a document list with one chunker. -/
def chunkDocumentsL (cfg : ChunkingConfig) (docs : List Document) : List Chunk :=
  docs.flatMap (fun d => chunkDocument cfg d.id d.filename d.text)

/-! ## Retriever (`DocumentRetriever` in `src/lib/rag/pdf-loader.ts`) -/

/-- The separator class of the tokenizer's split regex
`/[\s\-.,;:!?()[\]{}'"،、।‌]+/` (the last four are Arabic comma, ideographic
comma, devanagari danda and zero-width non-joiner). -/
def isSepChar (c : Char) : Bool :=
  isWsChar c || c = '-' || c = '.' || c = ',' || c = ';' || c = ':' ||
  c = '!' || c = '?' || c = '(' || c = ')' || c = '[' || c = ']' ||
  c = Char.ofNat 123 || c = Char.ofNat 125 || c = Char.ofNat 39 ||
  c = Char.ofNat 34 || c = Char.ofNat 0x60C || c = Char.ofNat 0x3001 ||
  c = Char.ofNat 0x964 || c = Char.ofNat 0x200C

/-- The filter regex `/[א-תA-Za-z0-9]/`: Hebrew letters, Latin letters and
digits. -/
def isWordKeep (c : Char) : Bool :=
  ('a' ≤ c && c ≤ 'z') || ('A' ≤ c && c ≤ 'Z') || ('0' ≤ c && c ≤ '9') ||
  (Char.ofNat 0x5D0 ≤ c && c ≤ Char.ofNat 0x5EA)

/-- First-occurrence-preserving deduplication (`Array.from(new Set(...))`). -/
def dedupAux (seen : List Str) : List Str → List Str
  | [] => []
  | x :: xs =>
      if x ∈ seen then dedupAux seen xs else x :: dedupAux (x :: seen) xs

/-- `Array.from(new Set(l))`. -/
def dedup (l : List Str) : List Str := dedupAux [] l

/-- Stable insertion for descending sort by length (ties keep original
order, as the ECMAScript stable `sort((a, b) => b.length - a.length)`). -/
def insertByLen (x : Str) : List Str → List Str
  | [] => [x]
  | y :: ys => if y.length ≤ x.length then x :: y :: ys else y :: insertByLen x ys

/-- Stable descending-by-length sort. -/
def sortByLenDesc : List Str → List Str
  | [] => []
  | x :: xs => insertByLen x (sortByLenDesc xs)

/-- `DocumentRetriever.tokenize`: lowercase, split on the separator class,
keep tokens of length at least 2 containing a word character, deduplicate,
sort by descending length. -/
def tokenize (s : Str) : List Str :=
  let toks := ((toLowerStr s).splitOnP isSepChar).filter
    (fun t => 2 ≤ t.length ∧ t.any isWordKeep)
  sortByLenDesc (dedup toks)

/-- Word characters of the regex `\b` boundary (`\w`). -/
def isWordChar (c : Char) : Bool :=
  ('a' ≤ c && c ≤ 'z') || ('A' ≤ c && c ≤ 'Z') || ('0' ≤ c && c ≤ '9') || c = '_'

/-- Whether `new RegExp("\\b" + term + "\\b", "u")` matches `hay`: the term
occurs at a position whose neighbours on both sides are non-word characters
(`prev` is the character just before the scan position). -/
def wbMatchAux (term : Str) (prev : Option Char) : Str → Bool
  | [] => false
  | c :: rest =>
      (term.isPrefixOf (c :: rest) &&
        (match prev with
         | none => true
         | some p => !isWordChar p) &&
        (match (c :: rest).drop term.length with
         | [] => true
         | a :: _ => !isWordChar a)) ||
      wbMatchAux term (some c) rest

/-- Whole-word (word-boundary) occurrence test. -/
def wbMatch (hay term : Str) : Bool := wbMatchAux term none hay

/-- `DocumentRetriever.containsTerm`: direct substring match, else a
word-boundary regex test for terms of length at least 3. -/
def containsTerm (text term : Str) : Bool :=
  let normalized := toLowerStr text
  let termLower := toLowerStr term
  isSubstr termLower normalized ||
    (3 ≤ termLower.length && wbMatch normalized termLower)

/-- `RetrieverConfig` with the constructor defaults already resolved
(`topK = 5`, `relevanceThreshold = 0.15`, `minChunkLength = 50`). -/
structure RetrieverConfig where
  topK : Nat
  relevanceThreshold : ℝ
  minChunkLength : Nat

/-- The `DocumentRetriever` constructor defaults. -/
noncomputable def defaultRetrieverConfig : RetrieverConfig :=
  { topK := 5, relevanceThreshold := 0.15, minChunkLength := 50 }

/-- `DocumentRetriever.initialize`: retain only chunks of at least the
minimum length; the index maps are recomputed from the retained list. -/
def initializeR (minChunkLength : Nat) (chunks : List Chunk) : List Chunk :=
  chunks.filter (fun c => minChunkLength ≤ c.content.length)

/-- Term count of `term` in the token list recorded for chunk id `cid` by
`buildIndex` (a later chunk with the same id overwrites an earlier one, as
`Map.set` does; `tokenize` deduplicates, so counts are 0 or 1). -/
def tfOf (chunks : List Chunk) (cid : Str) (term : Str) : Nat :=
  match (chunks.filter (fun c => c.id = cid)).getLast? with
  | none => 0
  | some c => (tokenize c.content).count term

/-- Document frequency: the number of distinct chunk ids whose token list
contains `term` (`documentFrequency` sets in `buildIndex`). -/
def dfOf (chunks : List Chunk) (term : Str) : Nat :=
  (dedup ((chunks.filter (fun c => term ∈ tokenize c.content)).map (fun c => c.id))).length

/-- `inverseDocumentFrequency.get(term) || 0`:
`Math.log(totalChunks / chunksContainingTerm)` for indexed terms, 0 for
terms absent from the index. -/
noncomputable def idfOf (chunks : List Chunk) (term : Str) : ℝ :=
  if dfOf chunks term = 0 then 0
  else Real.log ((chunks.length : ℝ) / (dfOf chunks term : ℝ))

/-- `DocumentRetriever.getAverageChunkLength`. -/
noncomputable def avgChunkLen (chunks : List Chunk) : ℝ :=
  if chunks.length = 0 then 1
  else (((chunks.map (fun c => c.content.length)).sum : ℕ) : ℝ) / (chunks.length : ℝ)

/-- `DocumentRetriever.calculatePositionBonus`: 2.0 at the start of the
chunk, linearly decaying by 1.8 times the position ratio; 0 when absent. -/
noncomputable def calculatePositionBonus (text term : Str) : ℝ :=
  match indexOfSub text term with
  | none => 0
  | some i => 2 - ((i : ℝ) / ((max text.length 1 : ℕ) : ℝ)) * 1.8

/-- BM25 parameter `k1`. -/
noncomputable def k1 : ℝ := 1.5

/-- BM25 parameter `b`. -/
noncomputable def bParam : ℝ := 0.75

/-- `totalMatches` in `DocumentRetriever.scoreChunk`: exact term frequency
plus half-weight credit for raw substring occurrences. -/
noncomputable def totalMatchesVal (chunks : List Chunk) (c : Chunk) (term : Str) : ℝ :=
  (tfOf chunks c.id term : ℝ) + (countOcc (toLowerStr c.content) term : ℝ) * 0.5

/-- The BM25-style part of one term's contribution in
`DocumentRetriever.scoreChunk`. -/
noncomputable def bm25Val (chunks : List Chunk) (c : Chunk) (term : Str) : ℝ :=
  idfOf chunks term *
    ((totalMatchesVal chunks c term * (k1 + 1)) /
      (totalMatchesVal chunks c term + k1 * (1 - bParam + bParam *
        ((c.content.length : ℝ) / avgChunkLen chunks))))

/-- One iteration of the query-term loop of `scoreChunk` on the lowercased
term: the BM25-style score plus half the position bonus. -/
noncomputable def termScore (chunks : List Chunk) (c : Chunk) (term : Str) : ℝ :=
  bm25Val chunks c (toLowerStr term) +
    calculatePositionBonus (toLowerStr c.content) (toLowerStr term) * 0.5

/-- `DocumentRetriever.scoreChunk`: the term loop followed by
`Math.max(0, score)`. -/
noncomputable def scoreChunk (chunks : List Chunk) (c : Chunk)
    (queryTerms : List Str) : ℝ :=
  max 0 (queryTerms.foldl (fun s t => s + termScore chunks c t) 0)

/-- An internal entry of the `scoredChunks` array in `search`. -/
structure ScoredEntry where
  chunk : Chunk
  score : ℝ
  matched : List Str

/-- The `SearchResult` record returned by `search`. -/
structure SearchResult where
  chunk : Chunk
  relevanceScore : ℝ
  matchedTerms : List Str

/-- The per-chunk body of the `search` loop: exact-substring match scores
10.0; otherwise BM25 scoring, with the score halved when fewer than half of
the query terms are found in the chunk. -/
noncomputable def scoreEntry (chunks : List Chunk) (queryLower : Str)
    (queryTerms : List Str) (trimmedQuery : Str) (c : Chunk) : ScoredEntry :=
  if isSubstr queryLower (toLowerStr c.content) then
    { chunk := c, score := 10, matched := dedup [trimmedQuery] }
  else
    let s := scoreChunk chunks c queryTerms
    if 0 < s then
      let found := queryTerms.filter (fun t => containsTerm c.content t)
      if (1 : ℝ) / 2 ≤ (found.length : ℝ) / ((max queryTerms.length 1 : ℕ) : ℝ) then
        { chunk := c, score := s, matched := dedup found }
      else
        { chunk := c, score := s * 0.5, matched := dedup [] }
    else
      { chunk := c, score := s, matched := dedup [] }

/-- The conditional push of entries above the relevance threshold. -/
noncomputable def filterAbove (t : ℝ) : List ScoredEntry → List ScoredEntry
  | [] => []
  | e :: es => if t < e.score then e :: filterAbove t es else filterAbove t es

/-- Stable insertion for the descending sort
`scoredChunks.sort((a, b) => b.score - a.score)` (ECMAScript sort is
stable: ties keep original order). -/
noncomputable def insertEntry (x : ScoredEntry) :
    List ScoredEntry → List ScoredEntry
  | [] => [x]
  | y :: ys => if y.score ≤ x.score then x :: y :: ys else y :: insertEntry x ys

/-- Stable descending sort by score. -/
noncomputable def sortEntries : List ScoredEntry → List ScoredEntry
  | [] => []
  | x :: xs => insertEntry x (sortEntries xs)

/-- The final mapping of a scored entry to a `SearchResult`:
`relevanceScore` is the raw score divided by 10, clamped to at most 1
(`Math.min(1.0, score / 10.0)`). -/
noncomputable def toResult (e : ScoredEntry) : SearchResult :=
  { chunk := e.chunk, relevanceScore := min 1 (e.score / 10),
    matchedTerms := e.matched }

/-- `DocumentRetriever.search` over the retained chunk list. -/
noncomputable def searchR (cfg : RetrieverConfig) (chunks : List Chunk)
    (query : Str) : List SearchResult :=
  if query = [] ∨ trimStr query = [] then []
  else
    let trimmedQuery := trimStr query
    let queryLower := toLowerStr trimmedQuery
    let queryTerms := tokenize trimmedQuery
    let scored := filterAbove cfg.relevanceThreshold
      (chunks.map (scoreEntry chunks queryLower queryTerms trimmedQuery))
    ((sortEntries scored).take cfg.topK).map toResult

/-! ## Orchestrator (`RAGManager` in `src/lib/rag/index.ts`)

The manager's asynchronous lifecycle is embedded in two ways.

For the lifecycle claims, `initializeRag`/`resetRag` run the whole pipeline
as one step, parametrised by the outcome of `await loadDocuments()`
(`.error` = the loader threw). The returned `Bool` is `false` when the
call rethrows the pipeline failure to its caller.

For the concurrency claim, `ensureStep` gives a small-step semantics of
`ensureInitialized` under the JavaScript event loop: each task runs in two
atomic segments, split exactly at the single `await` of
`initialize` — segment 0 is the `initialized` flag check followed by the
call into `loadDocuments()` (counted by `loadCalls`), segment 1 is the
post-await remainder (chunking, index build, `initialized = true`). -/

/-- `minChunkLength` used by `RAGManager.initialize` when building the
retriever (`createRetriever(chunks, { topK: 5, relevanceThreshold: 0.1 })`;
`minChunkLength` stays at its default 50). -/
def ragMinChunkLength : Nat := 50

/-- The fields of `RAGManager` relevant to the lifecycle: the retained
chunk list owned by the live retriever (`none` = `retriever === null`). -/
structure RagState where
  retrieverChunks : Option (List Chunk)
  documents : List Document
  chunks : List Chunk
  initialized : Bool
deriving DecidableEq

/-- The initial (`Uninitialized`) manager state. -/
def ragInit0 : RagState :=
  { retrieverChunks := none, documents := [], chunks := [], initialized := false }

/-- `RAGManager.initialize`, parametrised by the loader outcome. If the
flag is set, nothing happens. If the loader throws, the fields are
untouched and the error propagates (`Bool` result `false`). Otherwise the
documents are chunked, the retriever is built and the flag is set. -/
def initializeRag (st : RagState) (loadOutcome : Except Unit (List Document)) :
    RagState × Bool :=
  if st.initialized then (st, true)
  else
    match loadOutcome with
    | .error _ => (st, false)
    | .ok docs =>
        let chs := chunkDocumentsL defaultChunkingConfig docs
        ({ retrieverChunks := some (initializeR ragMinChunkLength chs),
           documents := docs, chunks := chs, initialized := true }, true)

/-- `RAGManager.reset`: null the retriever, clear documents and chunks,
clear the flag, then immediately re-run `initialize`. -/
def resetRag (st : RagState) (loadOutcome : Except Unit (List Document)) :
    RagState × Bool :=
  let _ := st
  initializeRag ragInit0 loadOutcome

/-- Event-loop state for concurrent `ensureInitialized` callers: the shared
flag, the instrumented count of `loadDocuments()` calls, and each task's
program counter (0 = not yet run, 1 = suspended at the `await`,
2 = finished). -/
structure EnsureSys where
  initialized : Bool
  loadCalls : Nat
  pcs : List Nat
deriving DecidableEq

/-- Run one atomic segment of task `t` of `ensureInitialized`:
at pc 0, check the flag — if set, return at once; if clear, enter
`initialize` and call `loadDocuments()`, suspending at the `await`;
at pc 1, run the synchronous remainder (chunk, build index) and set the
flag. -/
def ensureStep (s : EnsureSys) (t : Nat) : EnsureSys :=
  match s.pcs.get? t with
  | none => s
  | some 0 =>
      if s.initialized then { s with pcs := s.pcs.set t 2 }
      else { s with loadCalls := s.loadCalls + 1, pcs := s.pcs.set t 1 }
  | some 1 => { s with initialized := true, pcs := s.pcs.set t 2 }
  | some _ => s

/-- Run a cooperative schedule (a list of task ids) from a system state. -/
def runSched (s : EnsureSys) (sched : List Nat) : EnsureSys :=
  sched.foldl ensureStep s

/-- A fresh `Uninitialized` manager with `n` concurrent
`ensureInitialized`/`ensureReady` callers. -/
def freshSys (n : Nat) : EnsureSys :=
  { initialized := false, loadCalls := 0, pcs := List.replicate n 0 }

/-! ## Tool handler (`handleSearchPdfs` in `src/lib/rag/mcp-tools.ts`) -/

/-- A runtime exception inside the handler's `try` block: the
`ReferenceError` from the unbound identifier `score`, or any error thrown
by `ensureInitialized`/`searchRaw`. -/
inductive JsErr where
  | referenceError
  | thrown
deriving DecidableEq

/-- The `SearchResultItem` shape returned to the agent. -/
structure SearchResultItem where
  sourceDocument : Str
  relevanceScoreField : ℝ
  textSnippet : Str
  page : Option Nat

/-- The object returned by `handleSearchPdfs`. -/
structure PdfResponse where
  results : List SearchResultItem
  totalMatches : Nat
  note : Str
  formattedResponse : Str

/-- Evaluation of `rawResults.map((result) => ({ ..., relevance_score:
score, ... }))`: the callback reads the identifier `score`, which is not
bound in any enclosing scope, so the first invocation throws a
`ReferenceError`; over the empty array the callback never runs. -/
def mapResults : List SearchResult → Except JsErr (List SearchResultItem)
  | [] => .ok []
  | _ :: _ => .error .referenceError

/-- Note for a non-string or falsy (empty) query. -/
def invalidQueryNote : Str :=
  str "Invalid query provided. Query must be a non-empty string."

/-- Note for a query that trims to the empty string. -/
def emptyQueryNote : Str := str "Query cannot be empty."

/-- Note when the search returned no results. -/
def noneFoundNote : Str := str "No matching documents found for the query."

/-- Note of the catch-all error response. -/
def searchErrorNote : Str :=
  str "Error searching documents. Please try again with a different query."

/-- The `try` block of `handleSearchPdfs`. The argument `ragOutcome` is the
outcome of `rag.ensureInitialized(); rag.searchRaw(query)` (an `.error`
models a rejected promise). A `query` of `none` models a non-`string`
argument. In the success branch `results` is the value produced by
`mapResults`, which only succeeds with the empty list, so the non-empty
formatting template is unreachable and elided. -/
def handleSearchBody (ragOutcome : Except JsErr (List SearchResult))
    (query : Option Str) : Except JsErr PdfResponse :=
  if query = none ∨ query = some [] then
    .ok { results := [], totalMatches := 0, note := invalidQueryNote,
          formattedResponse :=
            str "ERROR: Invalid query. Please provide a valid search term." }
  else if (trimStr (query.getD [])).length = 0 then
    .ok { results := [], totalMatches := 0, note := emptyQueryNote,
          formattedResponse :=
            str "ERROR: Query cannot be empty. Please provide a search term." }
  else
    match ragOutcome with
    | .error e => .error e
    | .ok raw =>
        match mapResults raw with
        | .error e => .error e
        | .ok results =>
            .ok { results := results, totalMatches := results.length,
                  note :=
                    if results.length = 0 then noneFoundNote
                    else str "Found " ++ natToStr results.length ++
                      str " relevant sections."
                  formattedResponse :=
                    if results.length = 0 then
                      str "NO RESULTS FOUND - This information is not in the knowledge base."
                    else str "DOCUMENT SEARCH RESULTS:" }

/-- The `catch` wrapper around the handler body. -/
def handleSearchPdfs (ragOutcome : Except JsErr (List SearchResult))
    (query : Option Str) : PdfResponse :=
  match handleSearchBody ragOutcome query with
  | .ok r => r
  | .error _ =>
      { results := [], totalMatches := 0, note := searchErrorNote,
        formattedResponse := str "ERROR: Could not search documents. Please try again." }

/-! ## Claim C1 -/

/-- Claim C1: launching two concurrent `ensureInitialized()` calls against a
fresh `Uninitialized` manager is claimed to run the load-chunk-index
pipeline exactly once. The unsynchronized `initialized` flag is only set
after the `await loadDocuments()` suspension, so the interleaving
`[A₀, B₀, A₁, B₁]` (both callers pass the flag check before either
resumes) calls the loader twice, while the sequential interleaving
`[A₀, A₁, B₀, B₁]` calls it once. This contradicts the claim and the
method's own documentation ("Safe to call multiple times - only
initializes once"). -/
theorem claim1_concurrent_ensure_double_load :
    (runSched (freshSys 2) [0, 1, 0, 1]).loadCalls = 2 ∧
    (runSched (freshSys 2) [0, 1, 0, 1]).pcs = [2, 2] ∧
    (runSched (freshSys 2) [0, 0, 1, 1]).loadCalls = 1 := by decide

/-! ## Claim C2 -/

/-- Claim C2: for every string query and every outcome of the underlying
retriever search, `handleSearchPdfs` returns a response with `results = []`
and `total_matches = 0` and never raises: the result-mapping callback
references the unbound identifier `score`, so a non-empty raw result list
makes the mapping throw and the surrounding catch return the fallback
response, and an empty raw result list maps to an empty response. -/
theorem claim2_handleSearchPdfs_always_empty
    (ragOutcome : Except JsErr (List SearchResult)) (s : Str) :
    (handleSearchPdfs ragOutcome (some s)).results = [] ∧
    (handleSearchPdfs ragOutcome (some s)).totalMatches = 0 := by
  by_cases h0 : s = []
  · subst h0
    rcases ragOutcome with e | (_ | ⟨r, rs⟩) <;> exact ⟨rfl, rfl⟩
  · have hc : ¬(some s = none ∨ some s = some ([] : Str)) := by
      rintro (h | h)
      · cases h
      · injection h with h2
        exact h0 h2
    unfold handleSearchPdfs handleSearchBody
    rw [if_neg hc]
    by_cases h2 : (trimStr ((some s).getD [])).length = 0
    · rw [if_pos h2]
      exact ⟨rfl, rfl⟩
    · rw [if_neg h2]
      rcases ragOutcome with e | (_ | ⟨r, rs⟩) <;> exact ⟨rfl, rfl⟩

/-! ## Claim C4 -/

/-- Document used in the reset scenario. -/
def docR : Document :=
  { id := str "d1", filename := str "doc1.txt",
    text := str "this is a small policy document used for the reset scenario tests" }

/-- Claim C4 counterexample: from a `Ready` manager (successful first
initialization, live retriever present), a `reset()` whose re-run pipeline
fails (the loader throws) leaves the manager with `retriever = null` and
`initialized = false`: the previously `Ready` index is destroyed before the
new one has succeeded, contradicting the claim. -/
theorem claim4_failed_reset_destroys_index_cex :
    (initializeRag ragInit0 (.ok [docR])).1.initialized = true ∧
    (initializeRag ragInit0 (.ok [docR])).1.retrieverChunks ≠ none ∧
    (resetRag (initializeRag ragInit0 (.ok [docR])).1 (.error ())).1.retrieverChunks
      = none ∧
    (resetRag (initializeRag ragInit0 (.ok [docR])).1 (.error ())).1.initialized
      = false := by decide

/-- Claim C4 (amended): `reset()` discards the current retriever, document
and chunk state and clears the flag before re-running the pipeline, so
after a failed re-run the manager is exactly the cleared `Uninitialized`
state (the previous index is lost, and the failure propagates to the
caller, who may retry); after a successful re-run the manager holds the
index freshly built from the newly loaded documents. -/
theorem claim4_reset_clears_state_amended (st : RagState)
    (docs : List Document) :
    (resetRag st (.error ())).1 = ragInit0 ∧
    (resetRag st (.error ())).2 = false ∧
    (resetRag st (.ok docs)).1.retrieverChunks =
      some (initializeR ragMinChunkLength (chunkDocumentsL defaultChunkingConfig docs)) ∧
    (resetRag st (.ok docs)).1.initialized = true :=
  ⟨rfl, rfl, rfl, rfl⟩

/-! ## Claim C7 -/

/-- Paragraph A of the chunking scenario: 700 characters. -/
def paraA : Str := List.replicate 700 'a'

/-- Paragraph B of the chunking scenario: 900 characters. -/
def paraB : Str := List.replicate 900 'b'

/-- The scenario document: A, a blank line, B. -/
def docC7 : Str := paraA ++ str "\n\n" ++ paraB

/-- Claim C7: with `chunkSize = 1000` and `overlapSize = 200`, the
two-paragraph document (700 + 900 characters) produces exactly two chunks:
chunk 0 is paragraph A alone (700 characters), and chunk 1 is the last 200
characters of paragraph A followed (after the `"\n\n"` joiner) by
paragraph B, 1102 characters in total. -/
theorem claim7_two_paragraph_scenario :
    (chunkDocument defaultChunkingConfig (str "d") (str "doc.pdf") docC7).map
        (fun c => c.content) =
      [paraA, sliceNeg paraA 200 ++ str "\n\n" ++ paraB] ∧
    (chunkDocument defaultChunkingConfig (str "d") (str "doc.pdf") docC7).map
        (fun c => c.content.length) = [700, 1102] ∧
    sliceNeg paraA 200 = List.replicate 200 'a' := by decide

/-! ## Claim C8 -/

/-- Claim C8: validation failures are handled locally and never raise.
The retriever's `search` returns `[]` for any query that trims to the
empty string, and `handleSearchPdfs` returns an empty result set with an
explanatory note (rather than throwing) for a non-string query (`none`)
or a query that trims to the empty string. -/
theorem claim8_empty_query_handled :
    (∀ (cfg : RetrieverConfig) (chunks : List Chunk) (q : Str),
        trimStr q = [] → searchR cfg chunks q = []) ∧
    (∀ (o : Except JsErr (List SearchResult)) (q : Option Str),
        (q = none ∨ ∃ s, q = some s ∧ trimStr s = []) →
        (handleSearchPdfs o q).results = [] ∧
        (handleSearchPdfs o q).totalMatches = 0 ∧
        ((handleSearchPdfs o q).note = invalidQueryNote ∨
          (handleSearchPdfs o q).note = emptyQueryNote)) := by
  constructor
  · intro cfg chunks q hq
    unfold searchR
    exact if_pos (Or.inr hq)
  · intro o q hq
    rcases hq with h | ⟨s, rfl, hs⟩
    · subst h
      exact ⟨rfl, rfl, Or.inl rfl⟩
    · by_cases h0 : s = []
      · subst h0
        exact ⟨rfl, rfl, Or.inl rfl⟩
      · have hc : ¬(some s = none ∨ some s = some ([] : Str)) := by
          rintro (h | h)
          · cases h
          · injection h with h2
            exact h0 h2
        have h2 : (trimStr ((some s).getD [])).length = 0 := by
          simp only [Option.getD]
          rw [hs]
          rfl
        unfold handleSearchPdfs handleSearchBody
        rw [if_neg hc, if_pos h2]
        exact ⟨rfl, rfl, Or.inr rfl⟩

/-- Witness for claim C8 at the whitespace-only query `"   "`. -/
theorem claim8_empty_query_handled_witness :
    trimStr (str "   ") = [] ∧
    searchR defaultRetrieverConfig [] (str "   ") = [] ∧
    (handleSearchPdfs (.ok []) (some (str "   "))).results = [] ∧
    (handleSearchPdfs (.ok []) (some (str "   "))).note = emptyQueryNote :=
  ⟨by decide,
   claim8_empty_query_handled.1 _ _ _ (by decide),
   (claim8_empty_query_handled.2 _ _ (Or.inr ⟨_, rfl, by decide⟩)).1,
   by
    rcases (claim8_empty_query_handled.2 (.ok []) (some (str "   "))
      (Or.inr ⟨_, rfl, by decide⟩)).2.2 with h | h
    · exact absurd h (by decide)
    · exact h⟩

/-! ## Claim C9 (counterexample) -/

/-- Chunker configuration of the overlap counterexample. -/
def cfgC9 : ChunkingConfig :=
  { chunkSize := 10, overlapSize := 6, splitOnSentences := true }

/-- Document of the overlap counterexample. -/
def docC9 : Str := str "abcd\n\nteste\n\nxyzab"

/-- Claim C9 counterexample: chunking `docC9` with `chunkSize = 10`,
`overlapSize = 6` crosses one boundary and applies overlap, yet the first
chunk's trailing 6 characters (`"\nteste"`) differ from the second chunk's
leading 6 characters (`"teste\n"`): the overlap slice taken from the
untrimmed buffer starts with a newline, which the `trim()` of the next
chunk's content removes. -/
theorem claim9_overlap_prefix_cex :
    (chunkDocument cfgC9 (str "d") (str "doc") docC9).map (fun c => c.content) =
      [str "abcd\n\nteste", str "teste\n\nxyzab"] ∧
    sliceNeg (str "abcd\n\nteste") cfgC9.overlapSize ≠
      (str "teste\n\nxyzab").take 6 := by decide

/-! ## Claim C10 -/

/-- Ordering of recorded spans between two emitted chunks. -/
def SpanLe (a b : Chunk × Str) : Prop :=
  a.1.startChar ≤ b.1.startChar ∧ a.1.endChar ≤ b.1.endChar

/-- Invariant of the chunking loop: spans already emitted are pairwise
monotone, they are bounded by the running buffer start and character
offset, and the buffer start stays at least `overlapSize` behind the
offset. -/
def SpanInv (cfg : ChunkingConfig) (st : ChunkAcc) : Prop :=
  st.out.Pairwise SpanLe ∧
  (∀ pr ∈ st.out, pr.1.startChar ≤ st.startC ∧ pr.1.endChar ≤ st.cur) ∧
  st.startC ≤ st.cur - cfg.overlapSize

lemma spanInv_step (cfg : ChunkingConfig) (dId dName para : Str)
    (st : ChunkAcc) (h : SpanInv cfg st) :
    SpanInv cfg (chunkStep cfg dId dName st para) := by
  obtain ⟨hpw, hbnd, hsc⟩ := h
  by_cases hcond : 0 < st.content.length ∧
      cfg.chunkSize < st.content.length + para.length
  · simp only [SpanInv, chunkStep, if_pos hcond]
    refine ⟨?_, ?_, ?_⟩
    · rw [List.pairwise_append]
      refine ⟨hpw, List.pairwise_singleton _ _, ?_⟩
      intro a ha b hb
      rw [List.mem_singleton] at hb
      subst hb
      exact hbnd a ha
    · intro pr hpr
      rw [List.mem_append, List.mem_singleton] at hpr
      rcases hpr with hpr | rfl
      · exact ⟨le_trans (hbnd pr hpr).1 hsc,
          le_trans (hbnd pr hpr).2 (by omega)⟩
      · refine ⟨hsc, ?_⟩
        show st.cur ≤ st.cur + para.length + 2
        omega
    · omega
  · simp only [SpanInv, chunkStep, if_neg hcond]
    refine ⟨hpw, ?_, by omega⟩
    intro pr hpr
    exact ⟨(hbnd pr hpr).1, le_trans (hbnd pr hpr).2 (by omega)⟩

lemma spanInv_fold (cfg : ChunkingConfig) (dId dName : Str)
    (paras : List Str) (st : ChunkAcc) (h : SpanInv cfg st) :
    SpanInv cfg (paras.foldl (chunkStep cfg dId dName) st) := by
  induction paras generalizing st with
  | nil => exact h
  | cons p ps ih => exact ih _ (spanInv_step cfg dId dName p st h)

lemma spanInv_init (cfg : ChunkingConfig) :
    SpanInv cfg { content := [], startC := 0, idx := 0, page := 1, cur := 0, out := [] } := by
  refine ⟨List.Pairwise.nil, ?_, Nat.zero_le _⟩
  intro pr hpr
  cases hpr

lemma chunkPairs_pairwise (cfg : ChunkingConfig) (dId dName text : Str) :
    (chunkPairs cfg dId dName text).Pairwise SpanLe := by
  have h := spanInv_fold cfg dId dName (splitIntoParagraphs cfg text) _
    (spanInv_init cfg)
  obtain ⟨hpw, hbnd, _⟩ := h
  unfold chunkPairs
  by_cases hfin : 0 <
      (trimStr (chunkFold cfg dId dName (splitIntoParagraphs cfg text)).content).length
  · rw [if_pos hfin]
    rw [List.pairwise_append]
    refine ⟨hpw, List.pairwise_singleton _ _, ?_⟩
    intro a ha b hb
    rw [List.mem_singleton] at hb
    subst hb
    exact hbnd a ha
  · rw [if_neg hfin]
    exact hpw

/-- Claim C10: within one document, the recorded `[startChar, endChar)`
spans of the produced chunk sequence are monotonically non-decreasing in
`chunkIndex` order: every chunk's `startChar` is at least the previous
chunk's `startChar`, and likewise for `endChar`. -/
theorem claim10_spans_monotone (cfg : ChunkingConfig) (dId dName text : Str) :
    ((chunkDocument cfg dId dName text).map (fun c => c.startChar)).Chain' (· ≤ ·) ∧
    ((chunkDocument cfg dId dName text).map (fun c => c.endChar)).Chain' (· ≤ ·) := by
  have h := chunkPairs_pairwise cfg dId dName text
  unfold chunkDocument
  constructor
  · rw [List.map_map]
    exact (h.map _ (fun a b hab => hab.1)).chain'
  · rw [List.map_map]
    exact (h.map _ (fun a b hab => hab.2)).chain'

/-! ## Score evaluation lemmas -/

lemma idfOf_eq_zero (chunks : List Chunk) (t : Str)
    (h : dfOf chunks t = chunks.length) (h0 : chunks.length ≠ 0) :
    idfOf chunks t = 0 := by
  unfold idfOf
  rw [h, if_neg h0, div_self (by exact_mod_cast h0), Real.log_one]

lemma termScore_of_idf_zero (chunks : List Chunk) (c : Chunk) (t : Str)
    (h : idfOf chunks (toLowerStr t) = 0) :
    termScore chunks c t =
      calculatePositionBonus (toLowerStr c.content) (toLowerStr t) * 0.5 := by
  unfold termScore bm25Val
  rw [h, zero_mul, zero_add]

lemma calcBonus_of_index (text term : Str) (p : Nat)
    (h : indexOfSub text term = some p) :
    calculatePositionBonus text term =
      2 - ((p : ℝ) / ((max text.length 1 : ℕ) : ℝ)) * 1.8 := by
  unfold calculatePositionBonus
  rw [h]

lemma calcBonus_of_none (text term : Str)
    (h : indexOfSub text term = none) :
    calculatePositionBonus text term = 0 := by
  unfold calculatePositionBonus
  rw [h]

lemma indexOfSub_lt_length (hay needle : Str) (i : Nat)
    (h : indexOfSub hay needle = some i) (hne : needle ≠ []) :
    i < hay.length := by
  induction hay generalizing i with
  | nil =>
      unfold indexOfSub at h
      rcases needle with _ | ⟨a, as⟩
      · exact absurd rfl hne
      · simp [List.isPrefixOf] at h
  | cons c rest ih =>
      unfold indexOfSub at h
      by_cases hp : needle.isPrefixOf (c :: rest)
      · rw [if_pos hp] at h
        injection h with h
        subst h
        simp
      · rw [if_neg hp] at h
        rcases Option.map_eq_some'.mp h with ⟨j, hj, rfl⟩
        have := ih j hj
        simp only [List.length_cons]
        omega

lemma foldl_add_eq_sum (f : Str → ℝ) (l : List Str) (a : ℝ) :
    l.foldl (fun s t => s + f t) a = a + (l.map f).sum := by
  induction l generalizing a with
  | nil => simp
  | cons x xs ih => simp [ih, add_assoc]

/-! ## Claim C5 -/

/-- Modelled from the spec's words, for comparison only (claim C5 reads
"plus an additive position bonus ... linearly decaying from 2.0 at
position 0"): a score whose additive position contribution is the full
position bonus rather than half of it. -/
noncomputable def specFullBonusScore (chunks : List Chunk) (c : Chunk)
    (qts : List Str) : ℝ :=
  max 0 (qts.foldl
    (fun s t => s + (bm25Val chunks c (toLowerStr t) +
      calculatePositionBonus (toLowerStr c.content) (toLowerStr t))) 0)

/-- Chunk of the claim C5 counterexample: one chunk, so every indexed term
has document frequency 1 of 1 and IDF `log 1 = 0`. -/
def chW : Chunk :=
  { id := str "w", content := str "aa policy text here",
    documentId := str "d", documentName := str "doc.pdf",
    chunkIndex := 0, startPage := none, startChar := 0, endChar := 19 }

/-- Claim C5 counterexample: for the single-chunk index `[chW]` and the
query term `"aa"` occurring at character position 0, the position bonus is
2.0 and the BM25 part is exactly 0 (IDF is `log 1 = 0`), yet the computed
score is 1, not 2: `scoreChunk` adds `positionBonus * 0.5`, not the bonus
itself, so the score's additive position contribution at position 0 is
1.0, not the claimed 2.0. -/
theorem claim5_position_bonus_halved_cex :
    calculatePositionBonus (toLowerStr chW.content) (str "aa") = 2 ∧
    scoreChunk [chW] chW [str "aa"] = 1 ∧
    specFullBonusScore [chW] chW [str "aa"] = 2 := by
  have hlow : toLowerStr (str "aa") = str "aa" := by decide
  have hidx : indexOfSub (toLowerStr chW.content) (str "aa") = some 0 := by decide
  have hb2 : calculatePositionBonus (toLowerStr chW.content) (str "aa") = 2 := by
    rw [calcBonus_of_index _ _ _ hidx]
    norm_num
  have hidf : idfOf [chW] (toLowerStr (str "aa")) = 0 := by
    rw [hlow]
    exact idfOf_eq_zero _ _ (by decide) (by decide)
  refine ⟨hb2, ?_, ?_⟩
  · unfold scoreChunk
    simp only [List.foldl]
    rw [termScore_of_idf_zero _ _ _ hidf, hlow, hb2]
    norm_num
  · unfold specFullBonusScore
    simp only [List.foldl]
    unfold bm25Val
    rw [hidf, zero_mul, hlow, hb2]
    norm_num

/-- Claim C5 (amended): each occurring query term contributes one half of
the position bonus additively to the chunk's score (so the score's
position contribution ranges from 1.0 at position 0 down toward 0.1, not
2.0 down to 0.2); the bonus itself is `2 − 1.8·(index/length)` — exactly
2.0 at character position 0, strictly above 0.2 and at most 2.0 wherever
the term occurs, approaching 0.2 only at the chunk's end — and a term that
does not occur contributes bonus 0. -/
theorem claim5_position_bonus_amended (chunks : List Chunk) (c : Chunk)
    (qts : List Str) (text term : Str) :
    scoreChunk chunks c qts = max 0 ((qts.map (termScore chunks c)).sum) ∧
    (∀ t : Str, termScore chunks c t = bm25Val chunks c (toLowerStr t) +
        calculatePositionBonus (toLowerStr c.content) (toLowerStr t) * 0.5) ∧
    (indexOfSub text term = none → calculatePositionBonus text term = 0) ∧
    (∀ i : Nat, indexOfSub text term = some i →
        calculatePositionBonus text term =
          2 - ((i : ℝ) / ((max text.length 1 : ℕ) : ℝ)) * 1.8) ∧
    (indexOfSub text term = some 0 → calculatePositionBonus text term = 2) ∧
    (∀ i : Nat, indexOfSub text term = some i → term ≠ [] →
        0.2 < calculatePositionBonus text term ∧
        calculatePositionBonus text term ≤ 2) := by
  refine ⟨?_, fun t => rfl, calcBonus_of_none text term,
    fun i hi => calcBonus_of_index text term i hi, ?_, ?_⟩
  · unfold scoreChunk
    rw [foldl_add_eq_sum, zero_add]
  · intro h0
    rw [calcBonus_of_index text term 0 h0]
    norm_num
  · intro i hi hne
    have hlt : i < text.length := indexOfSub_lt_length text term i hi hne
    have hpos : 0 < text.length := by omega
    have hmax : max text.length 1 = text.length := by omega
    rw [calcBonus_of_index text term i hi, hmax]
    have hlen : (0 : ℝ) < (text.length : ℝ) := by exact_mod_cast hpos
    constructor
    · have hratio : ((i : ℝ) / (text.length : ℝ)) < 1 := by
        rw [div_lt_one hlen]
        exact_mod_cast hlt
      nlinarith
    · have hratio : (0 : ℝ) ≤ ((i : ℝ) / (text.length : ℝ)) :=
        div_nonneg (by positivity) (le_of_lt hlen)
      nlinarith

/-- Witness for claim C5 at `text = "abcde"`, `term = "cd"` (first
occurrence at index 2). -/
theorem claim5_position_bonus_amended_witness :
    indexOfSub (str "abcde") (str "cd") = some 2 ∧
    calculatePositionBonus (str "abcde") (str "cd") =
      2 - ((2 : ℝ) / 5) * 1.8 ∧
    0.2 < calculatePositionBonus (str "abcde") (str "cd") := by
  have h := claim5_position_bonus_amended [] chW [] (str "abcde") (str "cd")
  refine ⟨by decide, ?_, ?_⟩
  · have h2 := h.2.2.2.1 2 (by decide)
    have hm : (max (str "abcde").length 1 : ℕ) = 5 := by decide
    rw [h2, hm]
    norm_num
  · exact (h.2.2.2.2.2 2 (by decide) (by decide)).1

/-! ## Sorting and filtering lemmas for `search` -/

lemma filterAbove_mem (t : ℝ) (l : List ScoredEntry) :
    ∀ e ∈ filterAbove t l, e ∈ l ∧ t < e.score := by
  induction l with
  | nil => intro e he; cases he
  | cons x xs ih =>
      intro e he
      unfold filterAbove at he
      by_cases hx : t < x.score
      · rw [if_pos hx] at he
        rcases List.mem_cons.mp he with rfl | he
        · exact ⟨List.mem_cons_self _ _, hx⟩
        · exact ⟨List.mem_cons_of_mem _ (ih e he).1, (ih e he).2⟩
      · rw [if_neg hx] at he
        exact ⟨List.mem_cons_of_mem _ (ih e he).1, (ih e he).2⟩

lemma insertEntry_perm (x : ScoredEntry) (l : List ScoredEntry) :
    List.Perm (insertEntry x l) (x :: l) := by
  induction l with
  | nil => exact List.Perm.refl _
  | cons y ys ih =>
      unfold insertEntry
      by_cases hy : y.score ≤ x.score
      · rw [if_pos hy]
      · rw [if_neg hy]
        exact (ih.cons y).trans (List.Perm.swap x y ys)

lemma sortEntries_perm (l : List ScoredEntry) :
    List.Perm (sortEntries l) l := by
  induction l with
  | nil => exact List.Perm.refl _
  | cons x xs ih =>
      unfold sortEntries
      exact (insertEntry_perm x (sortEntries xs)).trans (ih.cons x)

lemma insertEntry_sorted (x : ScoredEntry) (l : List ScoredEntry)
    (h : l.Pairwise (fun a b => b.score ≤ a.score)) :
    (insertEntry x l).Pairwise (fun a b => b.score ≤ a.score) := by
  induction l with
  | nil => exact List.pairwise_singleton _ _
  | cons y ys ih =>
      unfold insertEntry
      rcases List.pairwise_cons.mp h with ⟨hy, hys⟩
      by_cases hxy : y.score ≤ x.score
      · rw [if_pos hxy]
        refine List.pairwise_cons.mpr ⟨?_, h⟩
        intro b hb
        rcases List.mem_cons.mp hb with rfl | hb
        · exact hxy
        · exact le_trans (hy b hb) hxy
      · rw [if_neg hxy]
        refine List.pairwise_cons.mpr ⟨?_, ih hys⟩
        intro b hb
        rcases (insertEntry_perm x ys).mem_iff.mp hb with h1
        rcases List.mem_cons.mp h1 with rfl | hb2
        · exact le_of_not_le hxy
        · exact hy b hb2

lemma sortEntries_sorted (l : List ScoredEntry) :
    (sortEntries l).Pairwise (fun a b => b.score ≤ a.score) := by
  induction l with
  | nil => exact List.Pairwise.nil
  | cons x xs ih =>
      unfold sortEntries
      exact insertEntry_sorted x (sortEntries xs) ih

lemma map_scoreEntry_mem (chunks : List Chunk) (ql : Str) (qts : List Str)
    (tq : Str) (e : ScoredEntry)
    (he : e ∈ chunks.map (scoreEntry chunks ql qts tq)) :
    e.chunk ∈ chunks ∧ e = scoreEntry chunks ql qts tq e.chunk := by
  rcases List.mem_map.mp he with ⟨c, hc, rfl⟩
  have hch : (scoreEntry chunks ql qts tq c).chunk = c := by
    unfold scoreEntry
    by_cases h1 : isSubstr ql (toLowerStr c.content)
    · rw [if_pos h1]
    · rw [if_neg h1]
      by_cases h2 : 0 < scoreChunk chunks c qts
      · rw [if_pos h2]
        by_cases h3 : (1 : ℝ) / 2 ≤
            (((qts.filter (fun t => containsTerm c.content t)).length : ℝ) /
              ((max qts.length 1 : ℕ) : ℝ))
        · rw [if_pos h3]
        · rw [if_neg h3]
      · rw [if_neg h2]
  rw [hch]
  exact ⟨hc, rfl⟩

/-- The non-empty-query branch of `search`, zeta-reduced. -/
lemma searchR_eq (cfg : RetrieverConfig) (chunks : List Chunk) (q : Str)
    (h : ¬(q = [] ∨ trimStr q = [])) :
    searchR cfg chunks q =
      ((sortEntries (filterAbove cfg.relevanceThreshold
        (chunks.map (scoreEntry chunks (toLowerStr (trimStr q))
          (tokenize (trimStr q)) (trimStr q))))).take cfg.topK).map toResult := by
  unfold searchR
  rw [if_neg h]


/-! ## Claim C6 -/

/-- Chunk of the claim C6 counterexample (90 characters: `alpha` at
position 0, `beta` at position 61). -/
def chV6 : Chunk :=
  { id := str "v", content :=
      str "alpha " ++ List.replicate 54 'x' ++ str " beta " ++ List.replicate 24 'y',
    documentId := str "d", documentName := str "doc.pdf",
    chunkIndex := 0, startPage := none, startChar := 0, endChar := 90 }

/-- Query of the claim C6 counterexample. -/
def q6 : Str := str "beta alpha"

lemma termScore_alpha : termScore [chV6] chV6 (str "alpha") = 1 := by
  have hlow : toLowerStr (str "alpha") = str "alpha" := by decide
  have hidf : idfOf [chV6] (toLowerStr (str "alpha")) = 0 := by
    rw [hlow]
    exact idfOf_eq_zero _ _ (by decide) (by decide)
  have hidx : indexOfSub (toLowerStr chV6.content) (str "alpha") = some 0 := by decide
  rw [termScore_of_idf_zero _ _ _ hidf, hlow, calcBonus_of_index _ _ _ hidx]
  norm_num

lemma termScore_beta : termScore [chV6] chV6 (str "beta") = 39 / 100 := by
  have hlow : toLowerStr (str "beta") = str "beta" := by decide
  have hidf : idfOf [chV6] (toLowerStr (str "beta")) = 0 := by
    rw [hlow]
    exact idfOf_eq_zero _ _ (by decide) (by decide)
  have hidx : indexOfSub (toLowerStr chV6.content) (str "beta") = some 61 := by decide
  have hm : (max (toLowerStr chV6.content).length 1 : ℕ) = 90 := by decide
  rw [termScore_of_idf_zero _ _ _ hidf, hlow, calcBonus_of_index _ _ _ hidx, hm]
  norm_num

lemma scoreChunk_chV6 :
    scoreChunk [chV6] chV6 [str "alpha", str "beta"] = 139 / 100 := by
  unfold scoreChunk
  rw [foldl_add_eq_sum, zero_add, List.map_cons, List.map_cons, List.map_nil,
    List.sum_cons, List.sum_cons, List.sum_nil, termScore_alpha, termScore_beta]
  norm_num

lemma scoreEntry_chV6 :
    scoreEntry [chV6] (toLowerStr (trimStr q6)) [str "alpha", str "beta"]
      (trimStr q6) chV6 =
    { chunk := chV6, score := 139 / 100,
      matched := [str "alpha", str "beta"] } := by
  have hsub : isSubstr (toLowerStr (trimStr q6)) (toLowerStr chV6.content) = false := by
    decide
  have hfound : [str "alpha", str "beta"].filter
      (fun t => containsTerm chV6.content t) = [str "alpha", str "beta"] := by decide
  unfold scoreEntry
  rw [hsub]
  simp only [Bool.false_eq_true, if_false, scoreChunk_chV6, hfound]
  rw [if_pos (by norm_num : (0:ℝ) < 139 / 100)]
  rw [if_pos ?side]
  case side =>
    show (1 : ℝ) / 2 ≤
      (([str "alpha", str "beta"].length : ℝ) /
        ((max ([str "alpha", str "beta"].length) 1 : ℕ) : ℝ))
    norm_num
  show ScoredEntry.mk chV6 (139 / 100) (dedup [str "alpha", str "beta"]) = _
  norm_num
  decide

/-- Claim C6 counterexample: searching the single-chunk index `[chV6]` for
`"beta alpha"` (both terms occur, but not the exact phrase) produces a raw
score of 1.39 — above the default `relevanceThreshold` 0.15, so the chunk
is returned — but the returned `relevanceScore` after normalization
(division by 10) is 0.139, which is NOT above the threshold: the
threshold is applied to the raw score before normalization, so a returned
result can carry a normalized score at or below `relevanceThreshold`. -/
theorem claim6_normalized_score_below_threshold_cex :
    searchR defaultRetrieverConfig [chV6] q6 =
      [{ chunk := chV6, relevanceScore := 139 / 1000,
         matchedTerms := [str "alpha", str "beta"] }] ∧
    ¬ (defaultRetrieverConfig.relevanceThreshold < 139 / 1000) ∧
    defaultRetrieverConfig.relevanceThreshold < 139 / 100 := by
  have hq : ¬(q6 = [] ∨ trimStr q6 = []) := by decide
  have htok : tokenize (trimStr q6) = [str "alpha", str "beta"] := by decide
  refine ⟨?_, ?_, ?_⟩
  · rw [searchR_eq _ _ _ hq]
    simp only [htok, List.map_cons, List.map_nil, scoreEntry_chV6]
    unfold filterAbove
    rw [if_pos ?thr]
    case thr =>
      show defaultRetrieverConfig.relevanceThreshold < (139 : ℝ) / 100
      simp only [defaultRetrieverConfig]
      norm_num
    unfold filterAbove sortEntries sortEntries insertEntry
    simp only [toResult, List.take, List.map_cons, List.map_nil]
    norm_num
  · simp only [defaultRetrieverConfig]
    norm_num
  · simp only [defaultRetrieverConfig]
    norm_num

/-- Claim C6 (amended): `search` returns at most `topK` results, and every
returned result comes from a scored entry whose RAW (pre-normalization)
score strictly exceeds `relevanceThreshold`, the returned `relevanceScore`
being that raw score divided by 10 and clamped to at most 1. (The
threshold is compared against the raw score only; the normalized score of
a returned result can be at or below the threshold, see the
counterexample.) -/
theorem claim6_topk_threshold_amended (cfg : RetrieverConfig)
    (chunks : List Chunk) (q : Str) :
    (searchR cfg chunks q).length ≤ cfg.topK ∧
    ∀ r ∈ searchR cfg chunks q, ∃ s : ℝ,
      cfg.relevanceThreshold < s ∧ r.relevanceScore = min 1 (s / 10) := by
  by_cases hq : (q = [] ∨ trimStr q = [])
  · unfold searchR
    rw [if_pos hq]
    exact ⟨Nat.zero_le _, by intro r hr; cases hr⟩
  · rw [searchR_eq _ _ _ hq]
    constructor
    · rw [List.length_map]
      exact List.length_take_le _ _
    · intro r hr
      rcases List.mem_map.mp hr with ⟨e, he, rfl⟩
      have he2 : e ∈ sortEntries (filterAbove cfg.relevanceThreshold
          ((chunks.map (scoreEntry chunks (toLowerStr (trimStr q))
            (tokenize (trimStr q)) (trimStr q))))) :=
        List.mem_of_mem_take he
      have he3 := (sortEntries_perm _).mem_iff.mp he2
      have he4 := filterAbove_mem _ _ e he3
      exact ⟨e.score, he4.2, rfl⟩

/-- Witness for claim C6 at the empty index and a concrete query. -/
theorem claim6_topk_threshold_amended_witness :
    (searchR defaultRetrieverConfig [] (str "query")).length ≤ 5 :=
  (claim6_topk_threshold_amended defaultRetrieverConfig [] (str "query")).1

/-! ## Claim C3 -/

/-- An exact-substring match is scored 10 with the trimmed query as its
only matched term. -/
lemma scoreEntry_exact (chunks : List Chunk) (ql : Str) (qts : List Str)
    (tq : Str) (c : Chunk) (hsub : isSubstr ql (toLowerStr c.content) = true) :
    scoreEntry chunks ql qts tq c =
      { chunk := c, score := 10, matched := dedup [tq] } := by
  unfold scoreEntry
  rw [if_pos hsub]

lemma filterAbove_mem_of (t : ℝ) (l : List ScoredEntry) (e : ScoredEntry)
    (he : e ∈ l) (ht : t < e.score) : e ∈ filterAbove t l := by
  induction l with
  | nil => cases he
  | cons x xs ih =>
      unfold filterAbove
      rcases List.mem_cons.mp he with rfl | he2
      · rw [if_pos ht]
        exact List.mem_cons_self _ _
      · by_cases hx : t < x.score
        · rw [if_pos hx]
          exact List.mem_cons_of_mem _ (ih he2)
        · rw [if_neg hx]
          exact ih he2

lemma filterAbove_length_le (t : ℝ) (l : List ScoredEntry) :
    (filterAbove t l).length ≤ l.length := by
  induction l with
  | nil => exact le_refl _
  | cons x xs ih =>
      unfold filterAbove
      by_cases hx : t < x.score
      · rw [if_pos hx]
        simpa using ih
      · rw [if_neg hx]
        exact le_trans ih (by simp)

/-- The query of the claim C3 counterexample: fourteen two-letter terms. -/
def qC3 : Str := str "aa bb cc dd ee ff gg hh ii jj kk ll mm nn"

/-- The fourteen query terms produced by the tokenizer for `qC3`. -/
def qts14 : List Str :=
  [str "aa", str "bb", str "cc", str "dd", str "ee", str "ff", str "gg",
   str "hh", str "ii", str "jj", str "kk", str "ll", str "mm", str "nn"]

/-- Exact-match chunk of the claim C3 counterexample: contains the query
verbatim. -/
def chX3 : Chunk :=
  { id := str "x", content := qC3 ++ str " of the hr policy",
    documentId := str "d", documentName := str "doc.pdf",
    chunkIndex := 0, startPage := none, startChar := 0, endChar := 58 }

/-- Token-match chunk of the claim C3 counterexample: contains all fourteen
query terms near its start (an interloping `qq` breaks the exact phrase),
padded to 100 characters. -/
def chY3 : Chunk :=
  { id := str "y",
    content := str "aa bb cc dd ee ff gg hh ii jj kk ll mm qq nn " ++
      List.replicate 55 'x',
    documentId := str "d", documentName := str "doc.pdf",
    chunkIndex := 1, startPage := none, startChar := 60, endChar := 160 }

/-- Every query term occurs in both chunks, so its document frequency is 2
of 2 and its IDF is `log 1 = 0`; the whole term contribution is half the
position bonus. -/
lemma termScoreY (t : Str) (p : Nat)
    (hlow : toLowerStr t = t)
    (hdf : dfOf [chX3, chY3] t = 2)
    (hidx : indexOfSub (toLowerStr chY3.content) t = some p) :
    termScore [chX3, chY3] chY3 t = (2 - (p : ℝ) / 100 * 1.8) * 0.5 := by
  have hidf : idfOf [chX3, chY3] (toLowerStr t) = 0 := by
    rw [hlow]
    exact idfOf_eq_zero _ _ hdf (by decide)
  have hm : (max (toLowerStr chY3.content).length 1 : ℕ) = 100 := by decide
  rw [termScore_of_idf_zero _ _ _ hidf, hlow, calcBonus_of_index _ _ _ hidx, hm]
  norm_num

lemma scoreChunk_chY3 :
    scoreChunk [chX3, chY3] chY3 qts14 = 2879 / 250 := by
  have h01 := termScoreY (str "aa") 0 (by decide) (by decide) (by decide)
  have h02 := termScoreY (str "bb") 3 (by decide) (by decide) (by decide)
  have h03 := termScoreY (str "cc") 6 (by decide) (by decide) (by decide)
  have h04 := termScoreY (str "dd") 9 (by decide) (by decide) (by decide)
  have h05 := termScoreY (str "ee") 12 (by decide) (by decide) (by decide)
  have h06 := termScoreY (str "ff") 15 (by decide) (by decide) (by decide)
  have h07 := termScoreY (str "gg") 18 (by decide) (by decide) (by decide)
  have h08 := termScoreY (str "hh") 21 (by decide) (by decide) (by decide)
  have h09 := termScoreY (str "ii") 24 (by decide) (by decide) (by decide)
  have h10 := termScoreY (str "jj") 27 (by decide) (by decide) (by decide)
  have h11 := termScoreY (str "kk") 30 (by decide) (by decide) (by decide)
  have h12 := termScoreY (str "ll") 33 (by decide) (by decide) (by decide)
  have h13 := termScoreY (str "mm") 36 (by decide) (by decide) (by decide)
  have h14 := termScoreY (str "nn") 42 (by decide) (by decide) (by decide)
  unfold scoreChunk
  rw [foldl_add_eq_sum, zero_add]
  unfold qts14
  simp only [List.map_cons, List.map_nil, List.sum_cons, List.sum_nil]
  rw [h01, h02, h03, h04, h05, h06, h07, h08, h09, h10, h11, h12, h13, h14]
  norm_num

lemma scoreEntry_chY3 :
    scoreEntry [chX3, chY3] (toLowerStr (trimStr qC3)) qts14 (trimStr qC3)
      chY3 =
    { chunk := chY3, score := 2879 / 250, matched := qts14 } := by
  have hsub : isSubstr (toLowerStr (trimStr qC3)) (toLowerStr chY3.content)
      = false := by decide
  have hfound : qts14.filter (fun t => containsTerm chY3.content t) = qts14 := by
    decide
  unfold scoreEntry
  rw [hsub]
  simp only [Bool.false_eq_true, if_false, scoreChunk_chY3, hfound]
  rw [if_pos (by norm_num : (0:ℝ) < 2879 / 250)]
  rw [if_pos ?side]
  case side =>
    show (1 : ℝ) / 2 ≤ ((qts14.length : ℝ) / ((max qts14.length 1 : ℕ) : ℝ))
    have h14 : qts14.length = 14 := by decide
    rw [h14]
    norm_num
  show ScoredEntry.mk chY3 (2879 / 250) (dedup qts14) = _
  have hded : dedup qts14 = qts14 := by decide
  rw [hded]

lemma scoreEntry_chX3 :
    scoreEntry [chX3, chY3] (toLowerStr (trimStr qC3)) qts14 (trimStr qC3)
      chX3 =
    { chunk := chX3, score := 10, matched := [trimStr qC3] } := by
  rw [scoreEntry_exact _ _ _ _ _ (by decide)]
  rfl

/-- Claim C3 counterexample: in the two-chunk index `[chX3, chY3]` with the
query `qC3`, the exact-substring chunk `chX3` scores the fixed raw 10.0,
but the token-matched chunk `chY3` (which does NOT contain the query as a
substring) accumulates raw BM25-plus-position-bonus score 11.516 > 10, so
the stable descending sort places `chY3` strictly ahead of `chX3`: an
exactly-matching chunk IS outranked by a partial token-overlap chunk.
Both normalized scores clamp to 1.0. -/
theorem claim3_token_match_outranks_exact_cex :
    (searchR defaultRetrieverConfig [chX3, chY3] qC3).map
        (fun r => r.chunk.id) = [chY3.id, chX3.id] ∧
    isSubstr (toLowerStr (trimStr qC3)) (toLowerStr chX3.content) = true ∧
    isSubstr (toLowerStr (trimStr qC3)) (toLowerStr chY3.content) = false ∧
    (searchR defaultRetrieverConfig [chX3, chY3] qC3).map
        (fun r => r.relevanceScore) = [1, 1] := by
  have hq : ¬(qC3 = [] ∨ trimStr qC3 = []) := by decide
  have htok : tokenize (trimStr qC3) = qts14 := by decide
  have hsearch : searchR defaultRetrieverConfig [chX3, chY3] qC3 =
      [{ chunk := chY3, relevanceScore := 1, matchedTerms := qts14 },
       { chunk := chX3, relevanceScore := 1, matchedTerms := [trimStr qC3] }] := by
    rw [searchR_eq _ _ _ hq]
    simp only [htok, List.map_cons, List.map_nil, scoreEntry_chX3, scoreEntry_chY3]
    unfold filterAbove
    rw [if_pos ?thrX]
    case thrX =>
      show defaultRetrieverConfig.relevanceThreshold < (10 : ℝ)
      simp only [defaultRetrieverConfig]
      norm_num
    unfold filterAbove
    rw [if_pos ?thrY]
    case thrY =>
      show defaultRetrieverConfig.relevanceThreshold < (2879 : ℝ) / 250
      simp only [defaultRetrieverConfig]
      norm_num
    unfold filterAbove
    unfold sortEntries sortEntries sortEntries
    rw [show insertEntry { chunk := chY3, score := 2879 / 250, matched := qts14 }
        ([] : List ScoredEntry) =
        [{ chunk := chY3, score := 2879 / 250, matched := qts14 }] from rfl]
    unfold insertEntry
    dsimp only
    rw [if_neg (by norm_num : ¬((2879 : ℝ) / 250 ≤ 10))]
    rw [show insertEntry { chunk := chX3, score := 10, matched := [trimStr qC3] }
        ([] : List ScoredEntry) =
        [{ chunk := chX3, score := 10, matched := [trimStr qC3] }] from rfl]
    simp only [toResult, defaultRetrieverConfig, List.take_succ_cons, List.take_nil,
      List.map_cons, List.map_nil]
    norm_num
  rw [hsearch]
  refine ⟨rfl, by decide, by decide, rfl⟩

/-- Claim C3 (amended): a chunk whose lowercased content contains the
lowercased trimmed query always receives raw score 10 and, whenever it is
returned, normalized `relevanceScore` exactly 1.0; every result ranked
strictly ahead of it also has `relevanceScore` exactly 1.0 — that is, it
can only be outranked by entries whose raw score is at least its own 10.0
(a token-only match CAN reach this, see the counterexample, so "never
outranked by a partial token match" does not hold in general); and when
the index holds at most `topK` chunks and the threshold is below 10, the
exactly-matching chunk is guaranteed to appear in the results with score
1.0. -/
theorem claim3_exact_match_score_amended (cfg : RetrieverConfig)
    (chunks : List Chunk) (q : Str) (c : Chunk)
    (hq : trimStr q ≠ [])
    (hsub : isSubstr (toLowerStr (trimStr q)) (toLowerStr c.content) = true) :
    (∀ r ∈ searchR cfg chunks q, r.chunk = c → r.relevanceScore = 1) ∧
    (∀ i j : Nat, i < j →
        ∀ (hj : j < (searchR cfg chunks q).length)
          (hi : i < (searchR cfg chunks q).length),
        ((searchR cfg chunks q).get ⟨j, hj⟩).chunk = c →
        ((searchR cfg chunks q).get ⟨i, hi⟩).relevanceScore = 1) ∧
    (c ∈ chunks → cfg.relevanceThreshold < 10 → chunks.length ≤ cfg.topK →
      ∃ r ∈ searchR cfg chunks q, r.chunk = c ∧ r.relevanceScore = 1) := by
  have hqne : ¬(q = [] ∨ trimStr q = []) := by
    rintro (rfl | h)
    · exact hq rfl
    · exact hq h
  have hex : ∀ e ∈ chunks.map (scoreEntry chunks (toLowerStr (trimStr q))
      (tokenize (trimStr q)) (trimStr q)), e.chunk = c → e.score = 10 := by
    intro e he hec
    obtain ⟨_, he2⟩ := map_scoreEntry_mem _ _ _ _ e he
    rw [hec] at he2
    rw [he2, scoreEntry_exact _ _ _ _ _ hsub]
  have hmin : min (1 : ℝ) ((10 : ℝ) / 10) = 1 := by norm_num
  refine ⟨?_, ?_, ?_⟩
  · intro r hr hrc
    rw [searchR_eq _ _ _ hqne] at hr
    rcases List.mem_map.mp hr with ⟨e, he, rfl⟩
    have he2 : e ∈ sortEntries (filterAbove cfg.relevanceThreshold
        (chunks.map (scoreEntry chunks (toLowerStr (trimStr q))
          (tokenize (trimStr q)) (trimStr q)))) := List.mem_of_mem_take he
    have he3 := (sortEntries_perm _).mem_iff.mp he2
    have he4 := (filterAbove_mem _ _ e he3).1
    have he5 := hex e he4 hrc
    show min 1 (e.score / 10) = 1
    rw [he5, hmin]
  · intro i j hij hj hi hjc
    have hR : searchR cfg chunks q =
        ((sortEntries (filterAbove cfg.relevanceThreshold
          (chunks.map (scoreEntry chunks (toLowerStr (trimStr q))
            (tokenize (trimStr q)) (trimStr q))))).take cfg.topK).map toResult :=
      searchR_eq _ _ _ hqne
    set L := (sortEntries (filterAbove cfg.relevanceThreshold
        (chunks.map (scoreEntry chunks (toLowerStr (trimStr q))
          (tokenize (trimStr q)) (trimStr q))))).take cfg.topK with hL
    have hjL : j < L.length := by
      have h2 := hj
      rw [hR, List.length_map] at h2
      exact h2
    have hiL : i < L.length := by
      have h2 := hi
      rw [hR, List.length_map] at h2
      exact h2
    have hgetj : (searchR cfg chunks q).get ⟨j, hj⟩ = toResult (L.get ⟨j, hjL⟩) := by
      rw [List.get_of_eq hR ⟨j, hj⟩]
      simp [List.get_eq_getElem, List.getElem_map]
    have hgeti : (searchR cfg chunks q).get ⟨i, hi⟩ = toResult (L.get ⟨i, hiL⟩) := by
      rw [List.get_of_eq hR ⟨i, hi⟩]
      simp [List.get_eq_getElem, List.getElem_map]
    rw [hgetj] at hjc
    rw [hgeti]
    have hsorted : L.Pairwise (fun a b => b.score ≤ a.score) :=
      (sortEntries_sorted _).sublist (List.take_sublist _ _)
    have hjchunk : (L.get ⟨j, hjL⟩).chunk = c := hjc
    have hjmem : L.get ⟨j, hjL⟩ ∈ L := List.get_mem _ _ _
    have hjmem2 : L.get ⟨j, hjL⟩ ∈ chunks.map (scoreEntry chunks
        (toLowerStr (trimStr q)) (tokenize (trimStr q)) (trimStr q)) := by
      have h1 : L.get ⟨j, hjL⟩ ∈ sortEntries (filterAbove cfg.relevanceThreshold
          (chunks.map (scoreEntry chunks (toLowerStr (trimStr q))
            (tokenize (trimStr q)) (trimStr q)))) :=
        List.mem_of_mem_take (by rw [← hL]; exact hjmem)
      exact (filterAbove_mem _ _ _ ((sortEntries_perm _).mem_iff.mp h1)).1
    have hjscore : (L.get ⟨j, hjL⟩).score = 10 := hex _ hjmem2 hjchunk
    have hle : (L.get ⟨j, hjL⟩).score ≤ (L.get ⟨i, hiL⟩).score :=
      List.pairwise_iff_get.mp hsorted ⟨i, hiL⟩ ⟨j, hjL⟩ hij
    rw [hjscore] at hle
    show min 1 ((L.get ⟨i, hiL⟩).score / 10) = 1
    rw [min_eq_left (by linarith)]
  · intro hmem hthr htop
    rw [searchR_eq _ _ _ hqne]
    have hentry : scoreEntry chunks (toLowerStr (trimStr q))
        (tokenize (trimStr q)) (trimStr q) c =
        { chunk := c, score := 10, matched := dedup [trimStr q] } :=
      scoreEntry_exact _ _ _ _ _ hsub
    have hmem1 : ({ chunk := c, score := 10, matched := dedup [trimStr q] }
        : ScoredEntry) ∈ chunks.map (scoreEntry chunks (toLowerStr (trimStr q))
          (tokenize (trimStr q)) (trimStr q)) := by
      rw [← hentry]
      exact List.mem_map_of_mem _ hmem
    have hmem2 := filterAbove_mem_of cfg.relevanceThreshold _ _ hmem1 hthr
    have hmem3 := (sortEntries_perm _).mem_iff.mpr hmem2
    have hlen2 : (sortEntries (filterAbove cfg.relevanceThreshold
        (chunks.map (scoreEntry chunks (toLowerStr (trimStr q))
          (tokenize (trimStr q)) (trimStr q))))).length ≤ cfg.topK := by
      rw [(sortEntries_perm _).length_eq]
      exact le_trans (le_trans (filterAbove_length_le _ _)
        (le_of_eq (List.length_map _ _))) htop
    rw [List.take_of_length_le hlen2]
    refine ⟨toResult { chunk := c, score := 10, matched := dedup [trimStr q] },
      List.mem_map_of_mem _ hmem3, rfl, ?_⟩
    show min (1 : ℝ) ((10 : ℝ) / 10) = 1
    exact hmin

/-- Witness for claim C3 at a single-chunk index containing the query
`"policy"` as a substring. -/
theorem claim3_exact_match_score_amended_witness :
    trimStr (str "policy") ≠ [] ∧
    isSubstr (toLowerStr (trimStr (str "policy"))) (toLowerStr chW.content)
      = true ∧
    ∃ r ∈ searchR defaultRetrieverConfig [chW] (str "policy"),
      r.chunk = chW ∧ r.relevanceScore = 1 :=
  ⟨by decide, by decide,
    (claim3_exact_match_score_amended defaultRetrieverConfig [chW]
        (str "policy") chW (by decide) (by decide)).2.2
      (by decide)
      (by simp only [defaultRetrieverConfig]; norm_num)
      (by decide)⟩

/-! ## Claim C9 (amended): whitespace and trim lemmas -/

/-- Whether a string is nonempty and starts with a non-whitespace
character. -/
def headNonWs (l : Str) : Bool :=
  match l with
  | [] => false
  | c :: _ => !isWsChar c

lemma mem_dropWhile_of_not (p : Char → Bool) (l : Str) (ch : Char)
    (hm : ch ∈ l) (hp : p ch = false) : ch ∈ l.dropWhile p := by
  induction l with
  | nil => cases hm
  | cons c rest ih =>
      rw [List.dropWhile_cons]
      by_cases hc : p c = true
      · rw [if_pos hc]
        rcases List.mem_cons.mp hm with rfl | hm2
        · rw [hp] at hc
          cases hc
        · exact ih hm2
      · rw [if_neg hc]
        exact hm

lemma headNonWs_dropWhile (l : Str) (h : l.dropWhile isWsChar ≠ []) :
    headNonWs (l.dropWhile isWsChar) = true := by
  induction l with
  | nil => exact absurd rfl h
  | cons c rest ih =>
      rw [List.dropWhile_cons] at h ⊢
      by_cases hc : isWsChar c = true
      · rw [if_pos hc] at h ⊢
        exact ih h
      · rw [if_neg hc]
        have hc2 : isWsChar c = false := Bool.eq_false_iff.mpr hc
        simp [headNonWs, hc2]

lemma dropWhile_eq_self_of_head (l : Str) (h : headNonWs l = true) :
    l.dropWhile isWsChar = l := by
  cases l with
  | nil => cases h
  | cons c rest =>
      rw [List.dropWhile_cons, if_neg ?c]
      case c =>
        unfold headNonWs at h
        rw [Bool.not_eq_true'] at h
        rw [h]
        exact Bool.false_ne_true

lemma trim_eq_self_of_ends (l : Str) (h1 : headNonWs l = true)
    (h2 : headNonWs l.reverse = true) : trimStr l = l := by
  unfold trimStr
  rw [dropWhile_eq_self_of_head l h1, dropWhile_eq_self_of_head l.reverse h2,
    List.reverse_reverse]

lemma trimStr_ne_nil (l : Str) (ch : Char) (hm : ch ∈ l)
    (hp : isWsChar ch = false) : trimStr l ≠ [] := by
  unfold trimStr
  intro h
  rw [List.reverse_eq_nil_iff] at h
  have h1 : ch ∈ l.dropWhile isWsChar := mem_dropWhile_of_not _ _ _ hm hp
  have h2 : ch ∈ (l.dropWhile isWsChar).reverse := List.mem_reverse.mpr h1
  have h3 : ch ∈ ((l.dropWhile isWsChar).reverse.dropWhile isWsChar) :=
    mem_dropWhile_of_not _ _ _ h2 hp
  rw [h] at h3
  cases h3

lemma headNonWs_prefix (x y : Str) (hp : x <+: y) (hx : x ≠ [])
    (hy : headNonWs y = true) : headNonWs x = true := by
  rcases hp with ⟨t, rfl⟩
  cases x with
  | nil => exact absurd rfl hx
  | cons c rest => exact hy

lemma headNonWs_append (a b : Str) (ha : a ≠ []) :
    headNonWs (a ++ b) = headNonWs a := by
  cases a with
  | nil => exact absurd rfl ha
  | cons c rest => rfl

lemma trimStr_head (l : Str) (h : trimStr l ≠ []) :
    headNonWs (trimStr l) = true ∧ headNonWs (trimStr l).reverse = true := by
  have hrev : (trimStr l).reverse =
      ((l.dropWhile isWsChar).reverse.dropWhile isWsChar) := by
    unfold trimStr
    rw [List.reverse_reverse]
  have hrne : ((l.dropWhile isWsChar).reverse.dropWhile isWsChar) ≠ [] := by
    intro hnil
    exact h (by unfold trimStr; rw [hnil]; rfl)
  constructor
  · have hpre : trimStr l <+: l.dropWhile isWsChar := by
      have hsuf : ((l.dropWhile isWsChar).reverse.dropWhile isWsChar) <:+
          (l.dropWhile isWsChar).reverse := List.dropWhile_suffix _
      have := List.reverse_prefix.mpr hsuf
      rw [List.reverse_reverse] at this
      unfold trimStr
      exact this
    refine headNonWs_prefix _ _ hpre h ?_
    apply headNonWs_dropWhile
    intro hnil
    apply hrne
    rw [hnil]
    rfl
  · rw [hrev]
    exact headNonWs_dropWhile _ hrne

lemma trim_idem (l : Str) : trimStr (trimStr l) = trimStr l := by
  by_cases h : trimStr l = []
  · rw [h]
    rfl
  · obtain ⟨h1, h2⟩ := trimStr_head l h
    exact trim_eq_self_of_ends _ h1 h2

lemma trim_invariant_ends (l : Str) (hl : trimStr l = l) (hne : l ≠ []) :
    headNonWs l = true ∧ headNonWs l.reverse = true := by
  have h := trimStr_head l (by rw [hl]; exact hne)
  rw [hl] at h
  exact h

lemma exists_not_ws_of_headNonWs (l : Str) (h : headNonWs l = true) :
    ∃ ch ∈ l, isWsChar ch = false := by
  cases l with
  | nil => cases h
  | cons c rest =>
      refine ⟨c, List.mem_cons_self _ _, ?_⟩
      unfold headNonWs at h
      rwa [Bool.not_eq_true'] at h

/-! ## Claim C9 (amended): paragraph properties -/

lemma sentEnd_not_ws (c : Char) (h : isSentEnd c = true) :
    isWsChar c = false := by
  have h2 : c = '.' ∨ c = '!' ∨ c = '?' := by
    simpa [isSentEnd, Bool.or_eq_true, decide_eq_true_eq, or_assoc] using h
  rcases h2 with rfl | rfl | rfl <;> rfl

lemma sentencesGo_has_end (gs : List (List Char)) : ∀ (acc : Str),
    ∀ p ∈ sentencesGo acc gs, ∃ ch ∈ p, isSentEnd ch = true := by
  induction gs with
  | nil =>
      intro acc p hp
      cases hp
  | cons g gs ih =>
      intro acc p hp
      unfold sentencesGo at hp
      rcases g with _ | ⟨c, grest⟩
      · exact ih acc p hp
      · dsimp only at hp
        by_cases hc : isSentEnd c = true
        · rw [if_pos hc] at hp
          rcases List.mem_cons.mp hp with rfl | hp2
          · exact ⟨c, List.mem_append_right _ (List.mem_cons_self _ _), hc⟩
          · exact ih [] p hp2
        · rw [if_neg hc] at hp
          exact ih _ p hp

lemma matchSentences_prop (text : Str) :
    ∀ p ∈ matchSentences text,
      p = text ∨ ∃ ch ∈ p, isSentEnd ch = true := by
  unfold matchSentences
  rcases hgs : sentencesGo []
      (text.splitBy (fun a b => isSentEnd a == isSentEnd b)) with _ | ⟨m, ms⟩
  · intro p hp
    rw [List.mem_singleton] at hp
    exact Or.inl hp
  · intro p hp
    right
    apply sentencesGo_has_end _ []
    rw [hgs]
    exact hp

lemma packFold_prop (cfg : ChunkingConfig) (sents : List Str) :
    ∀ (st : List Str × Str),
    (∀ s ∈ sents, ∃ ch ∈ s, isWsChar ch = false) →
    (∀ p ∈ st.1, trimStr p = p ∧ p ≠ []) →
    (st.2 = [] ∨ ∃ ch ∈ st.2, isWsChar ch = false) →
    (∀ p ∈ (sents.foldl (packStep cfg) st).1, trimStr p = p ∧ p ≠ []) ∧
    ((sents.foldl (packStep cfg) st).2 = [] ∨
      ∃ ch ∈ (sents.foldl (packStep cfg) st).2, isWsChar ch = false) := by
  induction sents with
  | nil =>
      intro st _ h1 h2
      exact ⟨h1, h2⟩
  | cons s ss ih =>
      intro st hs h1 h2
      rw [List.foldl_cons]
      have hss : ∀ t ∈ ss, ∃ ch ∈ t, isWsChar ch = false :=
        fun t ht => hs t (List.mem_cons_of_mem _ ht)
      have hsne := hs s (List.mem_cons_self _ _)
      unfold packStep
      by_cases hcond : 0 < st.2.length ∧ cfg.chunkSize < st.2.length + s.length
      · rw [if_pos hcond]
        refine ih _ hss ?_ (Or.inr hsne)
        intro p hp
        rcases List.mem_append.mp hp with hp2 | hp2
        · exact h1 p hp2
        · rw [List.mem_singleton] at hp2
          subst hp2
          rcases h2 with h2 | ⟨ch, hch, hchw⟩
          · rw [h2] at hcond
            simp at hcond
          · exact ⟨trim_idem _, trimStr_ne_nil _ ch hch hchw⟩
      · rw [if_neg hcond]
        refine ih _ hss h1 ?_
        rcases h2 with h2 | ⟨ch, hch, hchw⟩
        · rw [h2]
          rcases hsne with ⟨ch, hch, hchw⟩
          exact Or.inr ⟨ch, by simpa using hch, hchw⟩
        · exact Or.inr ⟨ch, List.mem_append_left _ hch, hchw⟩

lemma packSentences_prop (cfg : ChunkingConfig) (sents : List Str)
    (hs : ∀ s ∈ sents, ∃ ch ∈ s, isWsChar ch = false) :
    ∀ p ∈ packSentences cfg sents, trimStr p = p ∧ p ≠ [] := by
  unfold packSentences
  obtain ⟨h1, h2⟩ := packFold_prop cfg sents ([], []) hs
    (by intro p hp; cases hp) (Or.inl rfl)
  by_cases hfin : 0 < (trimStr (sents.foldl (packStep cfg) ([], [])).2).length
  · rw [if_pos hfin]
    intro p hp
    rcases List.mem_append.mp hp with hp2 | hp2
    · exact h1 p hp2
    · rw [List.mem_singleton] at hp2
      subst hp2
      refine ⟨trim_idem _, ?_⟩
      intro hnil
      rw [hnil] at hfin
      exact absurd hfin (by simp)
  · rw [if_neg hfin]
    exact h1

lemma splitLongParagraph_prop (cfg : ChunkingConfig) (p0 : Str)
    (htrim : trimStr p0 = p0) (hne : p0 ≠ []) :
    ∀ p ∈ splitLongParagraph cfg p0, trimStr p = p ∧ p ≠ [] := by
  unfold splitLongParagraph
  by_cases hlen : p0.length ≤ cfg.chunkSize
  · rw [if_pos hlen]
    intro p hp
    rw [List.mem_singleton] at hp
    subst hp
    exact ⟨htrim, hne⟩
  · rw [if_neg hlen]
    apply packSentences_prop
    intro s hsm
    rcases matchSentences_prop p0 s hsm with rfl | ⟨ch, hch, hche⟩
    · exact exists_not_ws_of_headNonWs _ (trim_invariant_ends _ htrim hne).1
    · exact ⟨ch, hch, sentEnd_not_ws ch hche⟩

lemma splitIntoParagraphs_prop (cfg : ChunkingConfig) (text : Str) :
    ∀ p ∈ splitIntoParagraphs cfg text, trimStr p = p ∧ p ≠ [] := by
  unfold splitIntoParagraphs
  have hnorm : ∀ p ∈ ((splitParasAux text).map trimStr).filter
      (fun p => p.length ≠ 0), trimStr p = p ∧ p ≠ [] := by
    intro p hp
    rw [List.mem_filter] at hp
    obtain ⟨hp1, hp2⟩ := hp
    rcases List.mem_map.mp hp1 with ⟨q, _, rfl⟩
    refine ⟨trim_idem q, ?_⟩
    intro hnil
    rw [hnil] at hp2
    exact absurd hp2 (by simp)
  by_cases hsp : cfg.splitOnSentences = true
  · rw [if_pos hsp]
    intro p hp
    rcases List.mem_flatMap.mp hp with ⟨q, hq, hpq⟩
    obtain ⟨hq1, hq2⟩ := hnorm q hq
    exact splitLongParagraph_prop cfg q hq1 hq2 p hpq
  · rw [if_neg hsp]
    exact hnorm

/-! ## Claim C9 (amended): the overlap invariant -/

/-- The running buffer extends the overlap slice of the most recently
flushed buffer `bb`: `cur = slice ++ "\n\n" ++ rest` with `rest` nonempty
and ending in a non-whitespace character. -/
def BufLink (cfg : ChunkingConfig) (bb cur : Str) : Prop :=
  ∃ rest : Str, cur = sliceNeg bb cfg.overlapSize ++ str "\n\n" ++ rest ∧
    rest ≠ [] ∧ headNonWs rest.reverse = true

/-- Adjacency between an emitted (chunk, buffer) pair and the next one:
when the earlier buffer is trim-invariant and its overlap slice starts
with a non-whitespace character, the slice is a prefix of the next
chunk's content. -/
def OverlapAdj (cfg : ChunkingConfig) (a b : Chunk × Str) : Prop :=
  trimStr a.2 = a.2 → headNonWs (sliceNeg a.2 cfg.overlapSize) = true →
    (sliceNeg a.2 cfg.overlapSize).isPrefixOf b.1.content = true

/-- Loop invariant for claim C9. -/
def C9Inv (cfg : ChunkingConfig) (st : ChunkAcc) : Prop :=
  (∀ pr ∈ st.out, pr.1.content = trimStr pr.2) ∧
  st.out.Chain' (OverlapAdj cfg) ∧
  (∀ lp, st.out.getLast? = some lp → BufLink cfg lp.2 st.content)

lemma bufLink_trim (cfg : ChunkingConfig) (bb cur : Str)
    (hb : BufLink cfg bb cur)
    (hh : headNonWs (sliceNeg bb cfg.overlapSize) = true) :
    trimStr cur = cur ∧
    (sliceNeg bb cfg.overlapSize).isPrefixOf cur = true := by
  obtain ⟨rest, rfl, hrne, hrlast⟩ := hb
  have hsne : sliceNeg bb cfg.overlapSize ≠ [] := by
    intro h
    rw [h] at hh
    cases hh
  constructor
  · apply trim_eq_self_of_ends
    · rw [List.append_assoc, headNonWs_append _ _ hsne]
      exact hh
    · rw [List.reverse_append,
        headNonWs_append _ _ (by simpa using hrne)]
      exact hrlast
  · rw [List.append_assoc]
    exact List.isPrefixOf_iff_prefix.mpr ⟨_, rfl⟩

lemma c9Inv_step (cfg : ChunkingConfig) (dId dName para : Str)
    (st : ChunkAcc) (hptrim : trimStr para = para) (hpne : para ≠ [])
    (h : C9Inv cfg st) : C9Inv cfg (chunkStep cfg dId dName st para) := by
  obtain ⟨hcont, hchain, hlink⟩ := h
  have hplast : headNonWs para.reverse = true :=
    (trim_invariant_ends _ hptrim hpne).2
  by_cases hcond : 0 < st.content.length ∧
      cfg.chunkSize < st.content.length + para.length
  · simp only [C9Inv, chunkStep, if_pos hcond]
    refine ⟨?_, ?_, ?_⟩
    · intro pr hpr
      rcases List.mem_append.mp hpr with hpr | hpr
      · exact hcont pr hpr
      · rw [List.mem_singleton] at hpr
        subst hpr
        rfl
    · rw [List.chain'_append]
      refine ⟨hchain, List.chain'_singleton _, ?_⟩
      intro x hx y hy
      rw [List.head?_cons, Option.mem_def, Option.some_inj] at hy
      subst hy
      intro htrim hh
      have hb := hlink x (Option.mem_def.mp hx)
      obtain ⟨htc, hpre⟩ := bufLink_trim cfg x.2 st.content hb hh
      show (sliceNeg x.2 cfg.overlapSize).isPrefixOf (trimStr st.content) = true
      rw [htc]
      exact hpre
    · intro lp hlp
      rw [List.getLast?_concat, Option.some_inj] at hlp
      subst hlp
      exact ⟨para, rfl, hpne, hplast⟩
  · simp only [C9Inv, chunkStep, if_neg hcond]
    refine ⟨hcont, hchain, ?_⟩
    intro lp hlp
    obtain ⟨rest, hcur, hrne, hrlast⟩ := hlink lp hlp
    have hcne : st.content ≠ [] := by
      rw [hcur]
      simp [str]
    rw [if_pos (List.length_pos.mpr hcne)]
    refine ⟨rest ++ str "\n\n" ++ para, ?_, by simp [hpne], ?_⟩
    · rw [hcur]
      simp [List.append_assoc]
    · rw [List.reverse_append,
        headNonWs_append _ _ (by simpa using hpne)]
      exact (trim_invariant_ends _ hptrim hpne).2

lemma c9Inv_init (cfg : ChunkingConfig) :
    C9Inv cfg { content := [], startC := 0, idx := 0, page := 1, cur := 0, out := [] } := by
  refine ⟨?_, List.chain'_nil, ?_⟩
  · intro pr hpr
    cases hpr
  · intro lp hlp
    cases hlp

lemma c9Inv_fold (cfg : ChunkingConfig) (dId dName : Str)
    (paras : List Str)
    (hps : ∀ p ∈ paras, trimStr p = p ∧ p ≠ []) :
    ∀ st : ChunkAcc, C9Inv cfg st →
      C9Inv cfg (paras.foldl (chunkStep cfg dId dName) st) := by
  induction paras with
  | nil =>
      intro st h
      exact h
  | cons p ps ih =>
      intro st h
      rw [List.foldl_cons]
      obtain ⟨hp1, hp2⟩ := hps p (List.mem_cons_self _ _)
      exact ih (fun q hq => hps q (List.mem_cons_of_mem _ hq)) _
        (c9Inv_step cfg dId dName p st hp1 hp2 h)

lemma chunkPairs_c9 (cfg : ChunkingConfig) (dId dName text : Str) :
    (∀ pr ∈ chunkPairs cfg dId dName text, pr.1.content = trimStr pr.2) ∧
    (chunkPairs cfg dId dName text).Chain' (OverlapAdj cfg) := by
  have h : C9Inv cfg (chunkFold cfg dId dName (splitIntoParagraphs cfg text)) := by
    unfold chunkFold
    exact c9Inv_fold cfg dId dName (splitIntoParagraphs cfg text)
      (splitIntoParagraphs_prop cfg text) _ (c9Inv_init cfg)
  obtain ⟨hcont, hchain, hlink⟩ := h
  unfold chunkPairs
  by_cases hfin : 0 <
      (trimStr (chunkFold cfg dId dName (splitIntoParagraphs cfg text)).content).length
  · rw [if_pos hfin]
    constructor
    · intro pr hpr
      rcases List.mem_append.mp hpr with hpr | hpr
      · exact hcont pr hpr
      · rw [List.mem_singleton] at hpr
        subst hpr
        rfl
    · rw [List.chain'_append]
      refine ⟨hchain, List.chain'_singleton _, ?_⟩
      intro x hx y hy
      rw [List.head?_cons, Option.mem_def, Option.some_inj] at hy
      subst hy
      intro htrim hh
      have hb := hlink x (Option.mem_def.mp hx)
      obtain ⟨htc, hpre⟩ := bufLink_trim cfg x.2 _ hb hh
      show (sliceNeg x.2 cfg.overlapSize).isPrefixOf
        (trimStr (chunkFold cfg dId dName (splitIntoParagraphs cfg text)).content) = true
      rw [htc]
      exact hpre
  · rw [if_neg hfin]
    exact ⟨hcont, hchain⟩

/-- Claim C9 (amended): for consecutive chunks of one document, whenever
the earlier chunk's untrimmed buffer is trim-invariant (so the chunk's
recorded content IS that buffer) and the overlap slice taken from it
starts with a non-whitespace character, the trailing `overlapSize`
characters of the earlier chunk's content are a prefix of the next
chunk's content. (Without these provisos the equality can fail: the
`trim()` applied to the seeded buffer may strip a leading whitespace
character of the overlap slice, see the counterexample.) -/
theorem claim9_overlap_prefix_amended (cfg : ChunkingConfig)
    (dId dName text : Str) (i : Nat)
    (hi1 : i + 1 < (chunkPairs cfg dId dName text).length)
    (hi0 : i < (chunkPairs cfg dId dName text).length)
    (hbuf : trimStr ((chunkPairs cfg dId dName text).get ⟨i, hi0⟩).2 =
      ((chunkPairs cfg dId dName text).get ⟨i, hi0⟩).2)
    (hhead : headNonWs (sliceNeg (((chunkPairs cfg dId dName text).get
      ⟨i, hi0⟩).2) cfg.overlapSize) = true) :
    (sliceNeg (((chunkPairs cfg dId dName text).get ⟨i, hi0⟩).1).content
        cfg.overlapSize).isPrefixOf
      (((chunkPairs cfg dId dName text).get ⟨i + 1, hi1⟩).1).content = true := by
  obtain ⟨hcont, hchain⟩ := chunkPairs_c9 cfg dId dName text
  have hadj := List.chain'_iff_get.mp hchain i (by omega)
  have hc : ((chunkPairs cfg dId dName text).get ⟨i, hi0⟩).1.content =
      trimStr ((chunkPairs cfg dId dName text).get ⟨i, hi0⟩).2 :=
    hcont _ (List.get_mem _ _ _)
  rw [hc, hbuf]
  exact hadj hbuf hhead

/-- Witness for claim C9 at the two-paragraph document `docC7`: both
chunks' buffers are whitespace-free at their ends and the overlap slice of
the first chunk (200 `a` characters) starts non-whitespace, so it is a
prefix of the second chunk's content. -/
theorem claim9_overlap_prefix_amended_witness :
    ∃ (h1 : 1 < (chunkPairs defaultChunkingConfig (str "d") (str "doc.pdf")
        docC7).length)
      (h0 : 0 < (chunkPairs defaultChunkingConfig (str "d") (str "doc.pdf")
        docC7).length),
      trimStr ((chunkPairs defaultChunkingConfig (str "d") (str "doc.pdf")
          docC7).get ⟨0, h0⟩).2 =
        ((chunkPairs defaultChunkingConfig (str "d") (str "doc.pdf")
          docC7).get ⟨0, h0⟩).2 ∧
      headNonWs (sliceNeg (((chunkPairs defaultChunkingConfig (str "d")
          (str "doc.pdf") docC7).get ⟨0, h0⟩).2) 200) = true ∧
      (sliceNeg (((chunkPairs defaultChunkingConfig (str "d") (str "doc.pdf")
          docC7).get ⟨0, h0⟩).1).content 200).isPrefixOf
        (((chunkPairs defaultChunkingConfig (str "d") (str "doc.pdf")
          docC7).get ⟨1, h1⟩).1).content = true :=
  ⟨by decide, by decide, by decide, by decide,
    claim9_overlap_prefix_amended defaultChunkingConfig (str "d")
      (str "doc.pdf") docC7 0 (by decide) (by decide) (by decide) (by decide)⟩

end RagSpec

